import Mathlib

/-!
Shallow embedding of `droidlet/memory/place_field.py` (class `PlaceField`)
together with the module-level helper `no_y_l1`.

Modelling conventions:
* numpy 2D float arrays become total functions `Nat → Nat → Int` (occupancy and
  timestamps) or `Nat → Nat → Nat` (owner indices) paired with the tracked side
  length `size`; every write performed by the Python code is guarded in-bounds,
  so total functions are a faithful view of array contents.
* Python dicts become insertion-ordered association lists; dict iteration order
  is insertion order (Python ≥ 3.7), matching list order here.
* the encoded cell keys are produced by `str(...)` on a non-negative integer and
  parsed back with `int(...)`; since `str`/`int` are mutually inverse on
  canonical decimal representations, keys are modelled directly as `Nat`.
* world coordinates are modelled as `ℚ`; Python `round` is round-half-to-even,
  embedded as `pyRound`.
* code paths that raise in Python return `some e : Option PyErr` (or
  `Except.error e`) together with the state at the moment of the raise.
-/

namespace PlaceFieldModel

def MAX_MAP_SIZE : Nat := 4097

def MAP_INIT_SIZE : Nat := 1025

def BIG_I : Nat := MAX_MAP_SIZE

def BIG_J : Nat := MAX_MAP_SIZE

/-- The Python exceptions that the modelled code can raise. -/
inductive PyErr where
  | assertionError
  | typeError
  | attributeError
  | keyError
  | valueError
  | exception
deriving DecidableEq

/-! ### Association-list helpers (Python dict model) -/

def alookup {α β : Type} [DecidableEq α] (l : List (α × β)) (k : α) : Option β :=
  match l with
  | [] => none
  | (a, b) :: rest => if a = k then some b else alookup rest k

/-- Dict assignment `d[k] = v`: overwrite in place (keeping position) or append. -/
def aset {α β : Type} [DecidableEq α] (l : List (α × β)) (k : α) (v : β) : List (α × β) :=
  match l with
  | [] => [(k, v)]
  | (a, b) :: rest => if a = k then (k, v) :: rest else (a, b) :: aset rest k v

/-- Dict `d.pop(k, None)`: drop the entry for `k` (keys are unique in every dict
the code builds, so dropping all matches is the same operation). -/
def aerase {α β : Type} [DecidableEq α] (l : List (α × β)) (k : α) : List (α × β) :=
  l.filter (fun p => p.1 ≠ k)

@[simp]
theorem alookup_aset_self {α β : Type} [DecidableEq α] (l : List (α × β)) (k : α) (v : β) :
    alookup (aset l k v) k = some v := by
  induction l with
  | nil => simp [aset, alookup]
  | cons hd tl ih =>
    obtain ⟨a, b⟩ := hd
    by_cases hak : a = k
    · simp [aset, hak, alookup]
    · simp [aset, hak, alookup, ih]

theorem alookup_aset_ne {α β : Type} [DecidableEq α] (l : List (α × β)) (k k' : α) (v : β)
    (hne : k ≠ k') : alookup (aset l k v) k' = alookup l k' := by
  induction l with
  | nil => simp [aset, alookup, hne]
  | cons hd tl ih =>
    obtain ⟨a, b⟩ := hd
    by_cases hak : a = k
    · subst hak
      simp [aset, alookup, hne, ih]
    · simp only [aset, if_neg hak]
      by_cases hak' : a = k'
      · simp [alookup, hak']
      · simp [alookup, hak', ih]

@[simp]
theorem alookup_aerase_self {α β : Type} [DecidableEq α] (l : List (α × β)) (k : α) :
    alookup (aerase l k) k = none := by
  induction l with
  | nil => simp [aerase, alookup]
  | cons hd tl ih =>
    obtain ⟨a, b⟩ := hd
    by_cases hak : a = k
    · simpa [aerase, hak] using ih
    · simpa [aerase, hak, alookup] using ih

theorem alookup_aerase_ne {α β : Type} [DecidableEq α] (l : List (α × β)) (k k' : α)
    (hne : k ≠ k') : alookup (aerase l k) k' = alookup l k' := by
  induction l with
  | nil => simp [aerase, alookup]
  | cons hd tl ih =>
    obtain ⟨a, b⟩ := hd
    by_cases hak : a = k
    · have h1 : aerase ((a, b) :: tl) k = aerase tl k := by simp [aerase, hak]
      have h2 : alookup ((a, b) :: tl) k' = alookup tl k' := by
        have : a ≠ k' := by rw [hak]; exact hne
        simp [alookup, this]
      rw [h1, h2, ih]
    · have h1 : aerase ((a, b) :: tl) k = (a, b) :: aerase tl k := by simp [aerase, hak]
      rw [h1]
      by_cases hak' : a = k'
      · simp [alookup, hak']
      · simp [alookup, hak', ih]

theorem alookup_append {α β : Type} [DecidableEq α] (l l' : List (α × β)) (k : α) :
    alookup (l ++ l') k =
      match alookup l k with
      | some v => some v
      | none => alookup l' k := by
  induction l with
  | nil => simp [alookup]
  | cons hd tl ih =>
    obtain ⟨a, b⟩ := hd
    by_cases hak : a = k
    · simp [alookup, hak]
    · simp [alookup, hak, ih]

/-! ### Key-set helpers (the inner dicts of `memid2locs`, key → True) -/

/-- `d[k] = True` on a key-set dict: keep an existing key in place, else append. -/
def keysAdd (ks : List Nat) (k : Nat) : List Nat :=
  if k ∈ ks then ks else ks ++ [k]

/-- `d.pop(k, None)` on a key-set dict (keys are unique): drop first occurrence. -/
def keyErase (ks : List Nat) (k : Nat) : List Nat :=
  match ks with
  | [] => []
  | a :: rest => if a = k then rest else a :: keyErase rest k

theorem mem_keyErase_of_mem_ne {ks : List Nat} {x k : Nat} (hx : x ∈ ks) (hne : x ≠ k) :
    x ∈ keyErase ks k := by
  induction ks with
  | nil => simp at hx
  | cons a rest ih =>
    by_cases hak : a = k
    · subst hak
      rcases List.mem_cons.mp hx with h | h
      · exact absurd h hne
      · simpa [keyErase] using h
    · rcases List.mem_cons.mp hx with h | h
      · simp [keyErase, hak, h]
      · simp [keyErase, hak, ih h]

theorem mem_keysAdd_self (ks : List Nat) (k : Nat) : k ∈ keysAdd ks k := by
  by_cases h : k ∈ ks <;> simp [keysAdd, h]

theorem mem_keysAdd_of_mem {ks : List Nat} {x : Nat} (k : Nat) (hx : x ∈ ks) :
    x ∈ keysAdd ks k := by
  by_cases h : k ∈ ks <;> simp [keysAdd, h, hx]

/-! ### Cell-key encoding (`PlaceField.ijh2idx` / `PlaceField.idx2ijh`) -/

/-- `str(h * BIG_I * BIG_J + i * BIG_J + j)`, with the string layer dropped
(see the module docstring: `str`/`int` round-trip on canonical decimals). -/
def ijh2idx (i j h : Nat) : Nat :=
  h * BIG_I * BIG_J + i * BIG_J + j

/-- `idx2ijh`: peel `j`, then `i`, then `h` back off the scalar key. -/
def idx2ijh (idx : Nat) : Nat × Nat × Nat :=
  let j := idx % BIG_J
  let idx1 := (idx - j) / BIG_J
  let i := idx1 % BIG_I
  let h := (idx1 - i) / BIG_I
  (i, j, h)

theorem idx2ijh_ijh2idx_general (i j h : Nat) (hi : i < BIG_I) (hj : j < BIG_J) :
    idx2ijh (ijh2idx i j h) = (i, j, h) := by
  simp only [idx2ijh, ijh2idx, BIG_I, BIG_J, MAX_MAP_SIZE, Prod.mk.injEq] at *
  refine ⟨?_, ?_, ?_⟩ <;> omega

theorem ijh2idx_inj {i j h i' j' h' : Nat} (hi : i < BIG_I) (hj : j < BIG_J)
    (hi' : i' < BIG_I) (hj' : j' < BIG_J) (he : ijh2idx i j h = ijh2idx i' j' h') :
    i = i' ∧ j = j' ∧ h = h' := by
  have ha := idx2ijh_ijh2idx_general i j h hi hj
  have hb := idx2ijh_ijh2idx_general i' j' h' hi' hj'
  rw [he, hb] at ha
  injection ha with h1 hrest
  injection hrest with h2 h3
  exact ⟨h1.symm, h2.symm, h3.symm⟩

/-! ### Exploration tracker (`examined` / `last` state and its operations)

The module-level helper of the source is

    def no_y_l1(self, xyz, k):
        return np.linalg.norm(np.asarray([xyz[0], xyz[2]]) - np.asarray([k[0], k[2]]), ord=1)

a three-parameter function (its first parameter is spuriously named `self`
although it lives at module level).  `PlaceField.get_closest` invokes it as
`no_y_l1(k, xyz)` with just two arguments, which raises `TypeError` before the
body runs; the loop body of `get_closest` therefore raises on its very first
iteration whenever `examined` is non-empty.  Likewise `can_examine` evaluates
`self.l1(cls.last, k)` when `self.last` is set: `PlaceField` has no attribute
`l1`, so attribute lookup raises `AttributeError` (and `cls` is unbound).
These raises are embedded as `Except.error`. -/

structure ExTarget where
  xyz : ℚ × ℚ × ℚ
  eid : Nat

structure ExQuery where
  xyz : ℚ × ℚ × ℚ
  eid : Nat
  label : String

structure ExploreState where
  examined : List ((ℚ × ℚ × ℚ) × Nat)
  examined_id : List Nat
  last : Option (ℚ × ℚ × ℚ)
deriving DecidableEq

def freshExplore : ExploreState :=
  { examined := [], examined_id := [], last := none }

/-- `PlaceField.get_closest`.  With `examined` empty the loop is skipped, the
query point is registered with visit count 0 and returned; with `examined`
non-empty the first loop iteration calls `no_y_l1` with two arguments and
raises `TypeError`. -/
def getClosest (s : ExploreState) (xyz : ℚ × ℚ × ℚ) :
    Except PyErr ((ℚ × ℚ × ℚ) × ExploreState) :=
  match s.examined with
  | [] => .ok (xyz, { s with examined := [(xyz, 0)] })
  | _ :: _ => .error .typeError

/-- `PlaceField.update`: `last = get_closest(target["xyz"])`, record the eid,
increment the matched point's visit count. -/
def exUpdate (s : ExploreState) (tgt : ExTarget) : Except PyErr ExploreState :=
  match getClosest s tgt.xyz with
  | .error e => .error e
  | .ok (k, s1) =>
      let cnt := (alookup s1.examined k).getD 0
      .ok { s1 with
              last := some k
              examined_id :=
                if tgt.eid ∈ s1.examined_id then s1.examined_id else s1.examined_id ++ [tgt.eid]
              examined := aset s1.examined k (cnt + 1) }

/-- `PlaceField.clear_examined`. -/
def clearExamined (_s : ExploreState) : ExploreState :=
  freshExplore

/-- `PlaceField.can_examine`.  `k = get_closest(...)` (raises `TypeError` when
`examined` is non-empty); the proximity check evaluates `self.l1` when
`self.last` is set, raising `AttributeError`; otherwise the final value is
`self.examined[k] < 2` (the proximity branch's `val = False` would be
overwritten by this assignment anyway). -/
def canExamine (s : ExploreState) (x : ExQuery) : Except PyErr (Bool × ExploreState) :=
  match getClosest s x.xyz with
  | .error e => .error e
  | .ok (k, s1) =>
      match s1.last with
      | some _ => .error .attributeError
      | none => .ok (decide ((alookup s1.examined k).getD 0 < 2), s1)

/-- C3: the spec's own scenario — `update({xyz:(0,0,0), eid:1})` followed by
`can_examine({xyz:(0.5,0,0.5)})` — raises `TypeError` inside `get_closest`
(`no_y_l1` called with two arguments instead of three) rather than returning
`false` as the claim states. -/
theorem can_examine_after_update_raises :
    ∃ s1, exUpdate freshExplore ⟨(0, 0, 0), 1⟩ = .ok s1 ∧
      canExamine s1 ⟨(1/2, 0, 1/2), 2, "obj"⟩ = .error PyErr.typeError :=
  ⟨_, rfl, rfl⟩

/-- C4: the exploration operations are not exception-free: a second `update`
call (any `get_closest` over a non-empty `examined` dict) raises `TypeError`,
because `no_y_l1` takes three parameters but is called with two. -/
theorem second_update_raises :
    ∃ s1, exUpdate freshExplore ⟨(0, 0, 0), 1⟩ = .ok s1 ∧
      exUpdate s1 ⟨(2, 0, 2), 2⟩ = .error PyErr.typeError :=
  ⟨_, rfl, rfl⟩

/-! ### Grid state (`PlaceField.__init__` fields except the exploration ones) -/

/-- One height slice: the three same-shaped square arrays
`map` (occupancy), `memids` (owner index) and `updated` (timestamp),
as total functions plus the tracked side length. -/
structure Slice where
  size : Nat
  occ : Nat → Nat → Int
  memids : Nat → Nat → Nat
  updated : Nat → Nat → Int

/-- Pointwise array write `a[i, j] = v`. -/
def fupd {α : Type} (f : Nat → Nat → α) (i j : Nat) (v : α) : Nat → Nat → α :=
  fun a b => if a = i ∧ b = j then v else f a b

/-- A fresh slice: `v * np.ones((MAP_INIT_SIZE, MAP_INIT_SIZE))` for
`updated = -1`, `map = 0`, `memids = 0`. -/
def newSlice : Slice :=
  { size := MAP_INIT_SIZE
    occ := fun _ _ => 0
    memids := fun _ _ => 0
    updated := fun _ _ => -1 }

/-- `new_map = v*np.ones((new_w,new_w)); new_map[ext:-ext, ext:-ext] = old`,
for `ext ≥ 1` (with `ext = 0` the Python slice is empty and the assignment
raises; that case never reaches `padFun`). -/
def padFun {α : Type} (w ext : Nat) (v : α) (f : Nat → Nat → α) : Nat → Nat → α :=
  fun a b =>
    if ext ≤ a ∧ a < w + ext ∧ ext ≤ b ∧ b < w + ext then f (a - ext) (b - ext) else v

/-- `self.maps`: dict from height to slice.  Keys are `Option Int` because
`extend_map(h=None, ...)` can in principle install a `None` key; every call the
code actually makes passes an `int`. -/
def mapsGet (ms : List (Option Int × Slice)) (h : Option Int) : Option Slice :=
  match ms with
  | [] => none
  | (k, sl) :: rest => if k = h then some sl else mapsGet rest h

def mapsSet (ms : List (Option Int × Slice)) (h : Option Int) (sl : Slice) :
    List (Option Int × Slice) :=
  match ms with
  | [] => [(h, sl)]
  | (k, s0) :: rest => if k = h then (k, sl) :: rest else (k, s0) :: mapsSet rest h sl

@[simp]
theorem mapsGet_mapsSet_self (ms : List (Option Int × Slice)) (h : Option Int) (sl : Slice) :
    mapsGet (mapsSet ms h sl) h = some sl := by
  induction ms with
  | nil => simp [mapsSet, mapsGet]
  | cons hd tl ih =>
    obtain ⟨k, s0⟩ := hd
    by_cases hk : k = h
    · simp [mapsSet, hk, mapsGet]
    · simp [mapsSet, hk, mapsGet, ih]

theorem mapsGet_mapsSet_ne (ms : List (Option Int × Slice)) (h h' : Option Int) (sl : Slice)
    (hne : h ≠ h') : mapsGet (mapsSet ms h sl) h' = mapsGet ms h' := by
  induction ms with
  | nil => simp [mapsSet, mapsGet, hne]
  | cons hd tl ih =>
    obtain ⟨k, s0⟩ := hd
    by_cases hk : k = h
    · subst hk
      simp [mapsSet, mapsGet, hne, ih]
    · simp only [mapsSet, if_neg hk]
      by_cases hk' : k = h'
      · simp [mapsGet, hk']
      · simp [mapsGet, hk', ih]

/-- The `PlaceField` spatial state (exploration fields are modelled separately
as `ExploreState`; the two groups of fields never interact in the source). -/
structure PState where
  index2memid : List String
  memid2index : List (String × Nat)
  maps : List (Option Int × Slice)
  map_size : Int
  memid2locs : List (String × List Nat)
  ppu : Int

/-- `self.memid2locs.get(memid, [])`, flattening the unobservable distinction
between an absent entry and a present-but-empty inner dict (both are falsy and
behave identically at every use site). -/
def mlocsGet (locs : List (String × List Nat)) (m : String) : List Nat :=
  (alookup locs m).getD []

/-- `PlaceField.maybe_add_memid`. -/
def maybeAddMemid (s : PState) (memid : String) : PState × Nat :=
  match alookup s.memid2index memid with
  | some idx => (s, idx)
  | none =>
      let idx := s.index2memid.length
      ({ s with index2memid := s.index2memid ++ [memid],
                memid2index := s.memid2index ++ [(memid, idx)] }, idx)

/-- The `if not h and len(self.maps) == 1: h = list(self.maps.keys())[0]`
redirection of `extend_map` (Python falsy `h`: `None` or `0`). -/
def effSliceKey (st : PState) (h0 : Option Int) : Option Int :=
  if (h0 = none ∨ h0 = some 0) ∧ st.maps.length = 1 then st.maps.head?.elim h0 Prod.fst
  else h0

/-- The body of `extend_map` after the `h` redirection: create the slice if
absent, then reject oversize growth, raise on `extension = 0` (the Python
slice `new_map[0:-0, 0:-0]` is empty and broadcasting the old array into it
raises `ValueError` before any of the three arrays is replaced), else pad. -/
def extendMapCore (st : PState) (h : Option Int) (ext : Int) : PState × Int × Option PyErr :=
  let stSl : PState × Slice :=
    match mapsGet st.maps h with
    | some sl => (st, sl)
    | none => ({ st with maps := mapsSet st.maps h newSlice }, newSlice)
  let w := stSl.2.size
  let newW := w + 2 * ext.toNat
  if MAX_MAP_SIZE < newW then (stSl.1, -1, none)
  else if ext = 0 then (stSl.1, 0, some .valueError)
  else
    let sl' : Slice :=
      { size := newW
        occ := padFun w ext.toNat 0 stSl.2.occ
        memids := padFun w ext.toNat 0 stSl.2.memids
        updated := padFun w ext.toNat (-1) stSl.2.updated }
    ({ stSl.1 with maps := mapsSet stSl.1.maps h sl' }, (newW : Int), none)

/-- `PlaceField.extend_map`. -/
def extendMap (st : PState) (h0 : Option Int) (ext : Int) : PState × Int × Option PyErr :=
  if ext < 0 then (st, 0, some .assertionError)
  else extendMapCore st (effSliceKey st h0) ext

/-- `PlaceField.__init__` (with `memory.self_memid` and `pixels_per_unit` as
parameters): register `"NULL"` and the self memid, then
`self.map_size = self.extend_map(h=0)`. -/
def fresh (selfMemid : String) (ppu : Int) : PState :=
  let s0 : PState :=
    { index2memid := [], memid2index := [], maps := [], map_size := 0,
      memid2locs := [], ppu := ppu }
  let s1 := (maybeAddMemid s0 "NULL").1
  let s2 := (maybeAddMemid s1 selfMemid).1
  let r := extendMap s2 (some 0) 1
  { r.1 with map_size := r.2.1 }

/-- Python `round` (round half to even) applied to the exact fraction
`num / den`, with `den > 0`.  `f` is the floor, `rem/den` the fractional
part. -/
def roundFrac (num den : Int) : Int :=
  let f := num.fdiv den
  let rem := num - f * den
  if 2 * rem < den then f
  else if den < 2 * rem then f + 1
  else if f % 2 = 0 then f else f + 1

/-- `PlaceField.y2slice` (current policy collapses every height to slice 0). -/
def y2slice (_y : ℚ) : Int := 0

/-- `PlaceField.real2map`: `i = round(x * ppu + n // 2)` and likewise for `j`;
the rational `x * ppu + n // 2` is the exact fraction
`(x.num * ppu + (n // 2) * x.den) / x.den`, rounded by `roundFrac`.
`none` models the `KeyError` raised when `self.maps[h]` is missing. -/
def real2map (s : PState) (x z : ℚ) (h : Option Int) : Option (Int × Int) :=
  match mapsGet s.maps h with
  | none => none
  | some sl =>
      let half := ((sl.size / 2 : Nat) : Int)
      some (roundFrac (x.num * s.ppu + half * (x.den : Int)) (x.den : Int),
            roundFrac (z.num * s.ppu + half * (z.den : Int)) (z.den : Int))

/-- `PlaceField.maybe_delete_loc`. -/
def maybeDeleteLoc (s : PState) (i j h : Nat) (t : Int) (memid : String) :
    PState × Option PyErr :=
  match mapsGet s.maps (some (h : Int)) with
  | none => (s, some .keyError)
  | some sl =>
      let current := s.index2memid.getD (sl.memids i j) ""
      if memid = "NULL" ∨ current = memid then
        match alookup s.memid2index "NULL" with
        | none => (s, some .keyError)
        | some nullIdx =>
            let sl' : Slice :=
              { sl with memids := fupd sl.memids i j nullIdx
                        occ := fupd sl.occ i j 0
                        updated := fupd sl.updated i j t }
            let idx := ijh2idx i j h
            let ks := mlocsGet s.memid2locs memid
            let locs' :=
              if ks = [] then s.memid2locs
              else
                let ks' := keyErase ks idx
                if ks' = [] then aerase s.memid2locs memid
                else aset s.memid2locs memid ks'
            ({ s with maps := mapsSet s.maps (some (h : Int)) sl', memid2locs := locs' },
             none)
      else (s, none)

/-- The loop body of `PlaceField.delete_loc_by_memid`: clear each keyed cell,
incrementing `count`, and raise as soon as `is_move` is set and `count > 1`
(i.e. right after the second cell has been cleared). -/
def clearCells (maps0 : List (Option Int × Slice)) (t : Int) (isMove : Bool)
    (keys : List Nat) (count : Nat) :
    List (Option Int × Slice) × Nat × Option PyErr :=
  match keys with
  | [] => (maps0, count, none)
  | k :: rest =>
      let d := idx2ijh k
      match mapsGet maps0 (some (d.2.2 : Int)) with
      | none => (maps0, count, some .keyError)
      | some sl =>
          let sl' : Slice :=
            { sl with memids := fupd sl.memids d.1 d.2.1 0
                      occ := fupd sl.occ d.1 d.2.1 0
                      updated := fupd sl.updated d.1 d.2.1 t }
          let maps1 := mapsSet maps0 (some (d.2.2 : Int)) sl'
          let c' := count + 1
          if isMove ∧ 1 < c' then (maps1, c', some .exception)
          else clearCells maps1 t isMove rest c'

/-- `PlaceField.delete_loc_by_memid`.  The final `memid2locs.pop` is skipped
when the loop raises. -/
def deleteLocByMemid (s : PState) (memid : String) (t : Int) (isMove : Bool) :
    PState × Option PyErr :=
  if memid = "" then (s, some .assertionError)
  else if memid = "NULL" then (s, some .assertionError)
  else
    let r := clearCells s.maps t isMove (mlocsGet s.memid2locs memid) 0
    match r.2.2 with
    | some e => ({ s with maps := r.1 }, some e)
    | none => ({ s with maps := r.1, memid2locs := aerase s.memid2locs memid }, none)

/-- One change record of `PlaceField.update_map`. -/
structure Change where
  pos : Option (ℚ × ℚ × ℚ) := none
  memid : String := "NULL"
  is_obstacle : Bool := true
  is_move : Bool := false
  is_delete : Bool := false

/-- The insertion tail of `update_map` (the non-delete branch after the bounds
check): register the memid, write the three arrays at the cell, and record the
key in `memid2locs`. -/
def applyInsert (s : PState) (t : Int) (c : Change) (h i j : Nat) : PState × Option PyErr :=
  let sA := (maybeAddMemid s c.memid).1
  let addIdx := (maybeAddMemid s c.memid).2
  let v := (alookup sA.memid2index c.memid).getD addIdx
  match mapsGet sA.maps (some (h : Int)) with
  | none => (sA, some .keyError)
  | some sl =>
      let sl' : Slice :=
        { sl with memids := fupd sl.memids i j v
                  occ := fupd sl.occ i j (if c.is_obstacle then 1 else 0)
                  updated := fupd sl.updated i j t }
      let key := ijh2idx i j h
      let ks := mlocsGet sA.memid2locs c.memid
      ({ sA with maps := mapsSet sA.maps (some (h : Int)) sl',
                 memid2locs := aset sA.memid2locs c.memid (keysAdd ks key) }, none)

/-- The move/insert tail of `update_map`: an `is_move` record first asserts a
non-sentinel memid and runs `delete_loc_by_memid(..., is_move=True)`
(propagating its raise), then the plain insert happens. -/
def moveOrInsert (s : PState) (t : Int) (c : Change) (h i j : Nat) : PState × Option PyErr :=
  if c.is_move then
    if c.memid = "NULL" then (s, some .assertionError)
    else
      match deleteLocByMemid s c.memid t true with
      | (s2, some e) => (s2, some e)
      | (s2, none) => applyInsert s2 t c h i j
  else applyInsert s t c h i j

/-- The per-record body of `update_map` after the bounds check succeeded. -/
def applyAt (s : PState) (t : Int) (c : Change) (h i j : Nat) : PState × Option PyErr :=
  if c.is_delete then maybeDeleteLoc s i j h t c.memid
  else moveOrInsert s t c h i j

/-- `s = max(i - self.map_size + 1, j - self.map_size + 1, -i, -j)`. -/
def gapOf (s : PState) (i j : Int) : Int :=
  max (max (i - s.map_size + 1) (j - s.map_size + 1)) (max (-i) (-j))

/-- `if s > 0: self.extend_map(s)` — note `s` lands on the *height* parameter
of `extend_map` (whose signature is `extend_map(h=None, extension=1)`), and the
return value is discarded. -/
def growIfNeeded (s : PState) (g : Int) : PState :=
  if 0 < g then (extendMap s (some g) 1).1 else s

/-- Processing of a single change record of `PlaceField.update_map`
(`t = self.get_time()` is passed in by the caller). -/
def updateChange (s : PState) (t : Int) (c : Change) : PState × Option PyErr :=
  match c.pos with
  | none =>
      if ¬ c.is_delete then (s, some .assertionError)
      else if c.memid = "" then (s, some .exception)
      else deleteLocByMemid s c.memid t false
  | some (x, y, z) =>
      let h := y2slice y
      match real2map s x z (some h) with
      | none => (s, some .keyError)
      | some (i, j) =>
          let s1 := growIfNeeded s (gapOf s i j)
          match real2map s1 x z (some h) with
          | none => (s1, some .keyError)
          | some (i2, j2) =>
              if 0 < gapOf s1 i2 j2 then (s1, none)
              else applyAt s1 t c h.toNat i2.toNat j2.toNat

/-- `PlaceField.update_map` over a batch: records are applied in order; an
exception aborts the batch, leaving the partial state. -/
def updateMap (s : PState) (t : Int) (cs : List Change) : PState × Option PyErr :=
  match cs with
  | [] => (s, none)
  | c :: rest =>
      match updateChange s t c with
      | (s', none) => updateMap s' t rest
      | (s', some e) => (s', some e)

/-- A sequence of `update_map` calls (each with its own clock reading). -/
def applyBatches (s : PState) (batches : List (Int × List Change)) : PState :=
  batches.foldl (fun st b => (updateMap st b.1 b.2).1) s

/-! Decidable accessors for stating facts about concrete runs (the slice
arrays themselves are functions, so whole-slice equality is not decidable;
these project out single decidable observations). -/

def slSizeAt (s : PState) (h : Option Int) : Option Nat :=
  (mapsGet s.maps h).map Slice.size

def occAt (s : PState) (h : Option Int) (i j : Nat) : Option Int :=
  (mapsGet s.maps h).map (fun sl => sl.occ i j)

def memidAt (s : PState) (h : Option Int) (i j : Nat) : Option Nat :=
  (mapsGet s.maps h).map (fun sl => sl.memids i j)

def updatedAt (s : PState) (h : Option Int) (i j : Nat) : Option Int :=
  (mapsGet s.maps h).map (fun sl => sl.updated i j)

/-- The owner token of a cell: `index2memid[int(memids[i, j])]`. -/
def ownerTokenAt (s : PState) (h : Option Int) (i j : Nat) : Option String :=
  (mapsGet s.maps h).map (fun sl => s.index2memid.getD (sl.memids i j) "")

def cOOB : Change := { pos := some (514, 0, 0) }

def cMoveA : Change := { pos := some (1, 0, 1), memid := "A", is_move := true }

def cInsA : Change := { pos := some (1, 0, 1), memid := "A" }

def cInsB : Change := { pos := some (1, 0, 1), memid := "B" }

/-- C2 (evaluation at the failing input): on a fresh field (slice-0 side 1027),
a record at `pos = (514, 0, 0)` maps to `i = 1027`, one cell out of bounds.
`update_map` then calls `self.extend_map(s)` with `s = 1` — but `s` is passed
as the *height* argument (`extend_map(h=None, extension=1)`), so a brand-new
slice keyed `1` is created instead of growing slice 0.  The record is then
skipped: no exception, slice 0 unchanged (side still 1027, target cell
untouched, no bookkeeping), and a spurious slice `1` now exists — whereas the
claim requires a grow call sized to cover the coordinate followed by the record
being applied to the now-covering grid (growing slice 0 to side 1029 would have
covered `i = 1028` and stayed under `MAX_MAP_SIZE`). -/
theorem update_map_oob_skips_despite_growable :
    (updateMap (fresh "SELF" 1) 7 [cOOB]).2 = none ∧
    slSizeAt (updateMap (fresh "SELF" 1) 7 [cOOB]).1 (some 0) = some 1027 ∧
    occAt (updateMap (fresh "SELF" 1) 7 [cOOB]).1 (some 0) 1027 513 = some 0 ∧
    memidAt (updateMap (fresh "SELF" 1) 7 [cOOB]).1 (some 0) 1027 513 = some 0 ∧
    slSizeAt (updateMap (fresh "SELF" 1) 7 [cOOB]).1 (some 1) = some 1027 ∧
    (updateMap (fresh "SELF" 1) 7 [cOOB]).1.memid2locs = [] := by
  decide

/-- C5 (evaluation at the failing input): a move record for `"A"`, an identity
owning zero cells, raises nothing — `delete_loc_by_memid`'s loop body never
runs, so `count` stays 0 and the `count > 1` check never fires — and the record
is applied as a plain insert, leaving `"A"` owning the target cell.  The claim
(and the docstring of `delete_loc_by_memid`, "asserts that there is precisely
one loc") requires a usage error in this situation. -/
theorem move_of_unplaced_memid_raises_nothing :
    (updateMap (fresh "SELF" 1) 3 [cMoveA]).2 = none ∧
    mlocsGet (updateMap (fresh "SELF" 1) 3 [cMoveA]).1.memid2locs "A" =
      [ijh2idx 514 514 0] ∧
    occAt (updateMap (fresh "SELF" 1) 3 [cMoveA]).1 (some 0) 514 514 = some 1 ∧
    ownerTokenAt (updateMap (fresh "SELF" 1) 3 [cMoveA]).1 (some 0) 514 514 = some "A" := by
  decide

/-- C1 (counterexample): insert `"A"` at a position, then insert `"B"` at the
same position.  The cell's owner becomes `"B"`, but the key remains in
`memid2locs["A"]` (the overwrite does not clean the old reverse-index entry),
so "every key in memid2locs[X] names a cell whose owner field is X" fails for
the non-sentinel identity `X = "A"`. -/
theorem reverse_index_goes_stale_on_overwrite :
    ijh2idx 514 514 0 ∈
      mlocsGet ((updateMap (fresh "SELF" 1) 0 [cInsA, cInsB]).1).memid2locs "A" ∧
    ownerTokenAt (updateMap (fresh "SELF" 1) 0 [cInsA, cInsB]).1 (some 0) 514 514 =
      some "B" ∧
    memidAt (updateMap (fresh "SELF" 1) 0 [cInsA, cInsB]).1 (some 0) 514 514 ≠ some 0 := by
  decide

/-- C7 (counterexample): `extend_map` with `extension = 0` passes the
`extension >= 0` assertion and the size check, but then executes
`new_map[0:-0, 0:-0] = old_map`, an assignment into an empty slice that raises
`ValueError` — the call neither returns the rejection value `-1` nor pads the
arrays (the slice is left unchanged only because the raise precedes the first
array replacement). -/
theorem extend_map_zero_extension_raises :
    (extendMap (fresh "SELF" 1) (some 0) 0).2.2 = some PyErr.valueError ∧
    (extendMap (fresh "SELF" 1) (some 0) 0).2.1 ≠ -1 ∧
    slSizeAt (extendMap (fresh "SELF" 1) (some 0) 0).1 (some 0) = some 1027 := by
  decide

/-! ### Registry well-formedness (`index2memid` / `memid2index`) -/

/-- The dict `memid2index` mirrors the list `index2memid`: tokens paired with
their positions, counting from `n`. -/
def regList (l : List String) (n : Nat) : List (String × Nat) :=
  match l with
  | [] => []
  | a :: tl => (a, n) :: regList tl (n + 1)

theorem regList_append (l l' : List String) (n : Nat) :
    regList (l ++ l') n = regList l n ++ regList l' (n + l.length) := by
  induction l generalizing n with
  | nil => simp [regList]
  | cons a tl ih =>
    have he : n + (tl.length + 1) = (n + 1) + tl.length := by omega
    show (a, n) :: regList (tl ++ l') (n + 1) =
      (a, n) :: (regList tl (n + 1) ++ regList l' (n + (tl.length + 1)))
    rw [he, ih]

theorem alookup_regList {l : List String} {n : Nat} {tok : String} {i : Nat}
    (h : alookup (regList l n) tok = some i) :
    n ≤ i ∧ i - n < l.length ∧ l.getD (i - n) "" = tok := by
  induction l generalizing n with
  | nil => simp [regList, alookup] at h
  | cons a tl ih =>
    simp only [regList, alookup] at h
    by_cases hat : a = tok
    · simp only [if_pos hat] at h
      obtain rfl : n = i := by exact_mod_cast congrArg (Option.getD · 0) h
      simp [hat]
    · simp only [if_neg hat] at h
      obtain ⟨h1, h2, h3⟩ := ih h
      refine ⟨by omega, by simp; omega, ?_⟩
      have hin : i - n = (i - (n + 1)) + 1 := by omega
      rw [hin, List.getD_cons_succ]
      exact h3

theorem alookup_regList_none {l : List String} {n : Nat} {tok : String}
    (h : alookup (regList l n) tok = none) : tok ∉ l := by
  induction l generalizing n with
  | nil => simp
  | cons a tl ih =>
    simp only [regList, alookup] at h
    by_cases hat : a = tok
    · simp [if_pos hat] at h
    · simp only [if_neg hat] at h
      simp only [List.mem_cons]
      rintro (rfl | hmem)
      · exact hat rfl
      · exact ih h hmem

theorem regList_map_snd (l : List String) (n : Nat) :
    (regList l n).map Prod.snd = List.range' n l.length := by
  induction l generalizing n with
  | nil => simp [regList]
  | cons a tl ih => simp [regList, ih, List.range'_succ]

/-- Registry invariant: `memid2index` mirrors `index2memid`, tokens are never
duplicated, and index 0 belongs to the sentinel `"NULL"`. -/
def RegWf (s : PState) : Prop :=
  s.memid2index = regList s.index2memid 0
  ∧ s.index2memid.Nodup
  ∧ s.index2memid.head? = some "NULL"

instance (s : PState) : Decidable (RegWf s) := by
  unfold RegWf; infer_instance

theorem RegWf.lookup_bounds {s : PState} (hw : RegWf s) {tok : String} {i : Nat}
    (h : alookup s.memid2index tok = some i) :
    i < s.index2memid.length ∧ s.index2memid.getD i "" = tok := by
  rw [hw.1] at h
  have := alookup_regList h
  simpa using this

theorem RegWf.lookup_none_notMem {s : PState} (hw : RegWf s) {tok : String}
    (h : alookup s.memid2index tok = none) : tok ∉ s.index2memid := by
  rw [hw.1] at h
  exact alookup_regList_none h

theorem RegWf.null_lookup {s : PState} (hw : RegWf s) :
    alookup s.memid2index "NULL" = some 0 := by
  obtain ⟨h1, _h2, h3⟩ := hw
  match hl : s.index2memid with
  | [] => rw [hl] at h3; simp at h3
  | a :: tl =>
    rw [hl] at h3
    simp only [List.head?_cons, Option.some.injEq] at h3
    rw [h1, hl, h3]
    simp [regList, alookup]

theorem RegWf.nonzero_of_ne_null {s : PState} (hw : RegWf s) {tok : String} {i : Nat}
    (h : alookup s.memid2index tok = some i) (hne : tok ≠ "NULL") : i ≠ 0 := by
  intro h0
  subst h0
  obtain ⟨hlt, hget⟩ := hw.lookup_bounds h
  obtain ⟨_h1, _h2, h3⟩ := hw
  match hl : s.index2memid with
  | [] => rw [hl] at h3; simp at h3
  | a :: tl =>
    rw [hl] at h3
    simp only [List.head?_cons, Option.some.injEq] at h3
    rw [hl] at hget
    simp only [List.getD_cons_zero] at hget
    exact hne (by rw [← hget, h3])

theorem RegWf.maybeAdd {s : PState} (hw : RegWf s) (m : String) :
    RegWf (maybeAddMemid s m).1 := by
  unfold maybeAddMemid
  match hlk : alookup s.memid2index m with
  | some idx => exact hw
  | none =>
    obtain ⟨h1, h2, h3⟩ := hw
    refine ⟨?_, ?_, ?_⟩
    · simp only [h1]
      rw [show regList (s.index2memid ++ [m]) 0 =
            regList s.index2memid 0 ++ regList [m] (0 + s.index2memid.length) from
          regList_append _ _ 0]
      simp [regList, h1]
    · simp only []
      refine List.nodup_append.mpr ⟨h2, List.nodup_singleton m, ?_⟩
      intro a ha hb
      simp only [List.mem_singleton] at hb
      subst hb
      exact (RegWf.lookup_none_notMem ⟨h1, h2, h3⟩ hlk) ha
    · match hl : s.index2memid with
      | [] => rw [hl] at h3; simp at h3
      | a :: tl => simp only [hl, List.cons_append, List.head?_cons]; rw [hl] at h3; exact h3

theorem maybeAdd_getD_stable (s : PState) (m : String) (i : Nat)
    (hi : i < s.index2memid.length) :
    (maybeAddMemid s m).1.index2memid.getD i "" = s.index2memid.getD i "" := by
  unfold maybeAddMemid
  match hlk : alookup s.memid2index m with
  | some idx => rfl
  | none => exact List.getD_append _ _ _ _ hi

theorem maybeAdd_len_mono (s : PState) (m : String) :
    s.index2memid.length ≤ (maybeAddMemid s m).1.index2memid.length := by
  unfold maybeAddMemid
  match hlk : alookup s.memid2index m with
  | some idx => exact le_refl _
  | none => simp

/-! Field-preservation lemmas: the registry fields are mutated only by
`maybe_add_memid`. -/

theorem extendMap_index2memid (st : PState) (h0 : Option Int) (ext : Int) :
    (extendMap st h0 ext).1.index2memid = st.index2memid := by
  unfold extendMap extendMapCore
  dsimp only
  repeat' split
  all_goals rfl

theorem extendMap_memid2index (st : PState) (h0 : Option Int) (ext : Int) :
    (extendMap st h0 ext).1.memid2index = st.memid2index := by
  unfold extendMap extendMapCore
  dsimp only
  repeat' split
  all_goals rfl

theorem extendMap_memid2locs (st : PState) (h0 : Option Int) (ext : Int) :
    (extendMap st h0 ext).1.memid2locs = st.memid2locs := by
  unfold extendMap extendMapCore
  dsimp only
  repeat' split
  all_goals rfl

theorem extendMap_map_size (st : PState) (h0 : Option Int) (ext : Int) :
    (extendMap st h0 ext).1.map_size = st.map_size := by
  unfold extendMap extendMapCore
  dsimp only
  repeat' split
  all_goals rfl

theorem extendMap_ppu (st : PState) (h0 : Option Int) (ext : Int) :
    (extendMap st h0 ext).1.ppu = st.ppu := by
  unfold extendMap extendMapCore
  dsimp only
  repeat' split
  all_goals rfl

theorem maybeDeleteLoc_registry (s : PState) (i j h : Nat) (t : Int) (memid : String) :
    (maybeDeleteLoc s i j h t memid).1.index2memid = s.index2memid ∧
    (maybeDeleteLoc s i j h t memid).1.memid2index = s.memid2index ∧
    (maybeDeleteLoc s i j h t memid).1.map_size = s.map_size ∧
    (maybeDeleteLoc s i j h t memid).1.ppu = s.ppu := by
  unfold maybeDeleteLoc
  dsimp only
  repeat' split
  all_goals exact ⟨rfl, rfl, rfl, rfl⟩

theorem deleteLocByMemid_registry (s : PState) (m : String) (t : Int) (b : Bool) :
    (deleteLocByMemid s m t b).1.index2memid = s.index2memid ∧
    (deleteLocByMemid s m t b).1.memid2index = s.memid2index ∧
    (deleteLocByMemid s m t b).1.map_size = s.map_size ∧
    (deleteLocByMemid s m t b).1.ppu = s.ppu := by
  unfold deleteLocByMemid
  dsimp only
  repeat' split
  all_goals exact ⟨rfl, rfl, rfl, rfl⟩

theorem applyInsert_registry (s : PState) (t : Int) (c : Change) (h i j : Nat) :
    (applyInsert s t c h i j).1.index2memid = (maybeAddMemid s c.memid).1.index2memid ∧
    (applyInsert s t c h i j).1.memid2index = (maybeAddMemid s c.memid).1.memid2index ∧
    (applyInsert s t c h i j).1.map_size = s.map_size ∧
    (applyInsert s t c h i j).1.ppu = s.ppu := by
  have hsz : (maybeAddMemid s c.memid).1.map_size = s.map_size := by
    unfold maybeAddMemid
    match alookup s.memid2index c.memid with
    | some idx => rfl
    | none => rfl
  have hpp : (maybeAddMemid s c.memid).1.ppu = s.ppu := by
    unfold maybeAddMemid
    match alookup s.memid2index c.memid with
    | some idx => rfl
    | none => rfl
  unfold applyInsert
  dsimp only
  repeat' split
  all_goals exact ⟨rfl, rfl, hsz, hpp⟩

/-- Registry extension: every index issued in `s` still names the same token. -/
def RegExt (s s' : PState) : Prop :=
  s.index2memid.length ≤ s'.index2memid.length ∧
  ∀ i, i < s.index2memid.length → s'.index2memid.getD i "" = s.index2memid.getD i ""

theorem regExt_refl (s : PState) : RegExt s s :=
  ⟨le_refl _, fun _ _ => Eq.refl _⟩

theorem regExt_trans {a b c : PState} (h1 : RegExt a b) (h2 : RegExt b c) : RegExt a c :=
  ⟨le_trans h1.1 h2.1, fun i hi => by rw [h2.2 i (lt_of_lt_of_le hi h1.1), h1.2 i hi]⟩

theorem RegExt.of_eq {a b : PState} (h : b.index2memid = a.index2memid) : RegExt a b :=
  ⟨by rw [h], fun i _ => by rw [h]⟩

theorem maybeAdd_regExt (s : PState) (m : String) : RegExt s (maybeAddMemid s m).1 :=
  ⟨maybeAdd_len_mono s m, fun i hi => maybeAdd_getD_stable s m i hi⟩

theorem applyInsert_regExt (s : PState) (t : Int) (c : Change) (h i j : Nat) :
    RegExt s (applyInsert s t c h i j).1 := by
  constructor
  · rw [(applyInsert_registry s t c h i j).1]
    exact maybeAdd_len_mono s c.memid
  · intro k hk
    rw [(applyInsert_registry s t c h i j).1]
    exact maybeAdd_getD_stable s c.memid k hk

theorem moveOrInsert_regExt (s : PState) (t : Int) (c : Change) (h i j : Nat) :
    RegExt s (moveOrInsert s t c h i j).1 := by
  unfold moveOrInsert
  split
  · split
    · exact regExt_refl s
    · split
      · next s2 e heq =>
        refine RegExt.of_eq ?_
        have hreg := (deleteLocByMemid_registry s c.memid t true).1
        rw [heq] at hreg
        exact hreg
      · next s2 heq =>
        refine regExt_trans (RegExt.of_eq ?_) (applyInsert_regExt s2 t c h i j)
        have hreg := (deleteLocByMemid_registry s c.memid t true).1
        rw [heq] at hreg
        exact hreg
  · exact applyInsert_regExt s t c h i j

theorem applyAt_regExt (s : PState) (t : Int) (c : Change) (h i j : Nat) :
    RegExt s (applyAt s t c h i j).1 := by
  unfold applyAt
  split
  · exact RegExt.of_eq (maybeDeleteLoc_registry s i j h t c.memid).1
  · exact moveOrInsert_regExt s t c h i j

theorem growIfNeeded_regExt (s : PState) (g : Int) : RegExt s (growIfNeeded s g) := by
  unfold growIfNeeded
  split
  · exact RegExt.of_eq (extendMap_index2memid s _ 1)
  · exact regExt_refl s

theorem updateChange_regExt (s : PState) (t : Int) (c : Change) :
    RegExt s (updateChange s t c).1 := by
  unfold updateChange
  dsimp only
  split
  · split
    · exact regExt_refl s
    · split
      · exact regExt_refl s
      · exact RegExt.of_eq (deleteLocByMemid_registry s c.memid t false).1
  · split
    · exact regExt_refl s
    · split
      · exact growIfNeeded_regExt s _
      · split
        · exact growIfNeeded_regExt s _
        · exact regExt_trans (growIfNeeded_regExt s _) (applyAt_regExt _ t c _ _ _)

theorem updateMap_regExt (s : PState) (t : Int) (cs : List Change) :
    RegExt s (updateMap s t cs).1 := by
  induction cs generalizing s with
  | nil => exact regExt_refl s
  | cons c rest ih =>
    unfold updateMap
    match hch : updateChange s t c with
    | (s', none) =>
      have h1 : RegExt s s' := by
        have := updateChange_regExt s t c
        rw [hch] at this
        exact this
      exact regExt_trans h1 (ih s')
    | (s', some e) =>
      have := updateChange_regExt s t c
      rw [hch] at this
      exact this

theorem applyBatches_regExt (s : PState) (batches : List (Int × List Change)) :
    RegExt s (applyBatches s batches) := by
  induction batches generalizing s with
  | nil => exact regExt_refl s
  | cons b rest ih =>
    unfold applyBatches
    simp only [List.foldl_cons]
    exact regExt_trans (updateMap_regExt s b.1 b.2) (ih (updateMap s b.1 b.2).1)

theorem foldlAdd_regExt (s : PState) (toks : List String) :
    RegExt s (toks.foldl (fun st tk => (maybeAddMemid st tk).1) s) := by
  induction toks generalizing s with
  | nil => exact regExt_refl s
  | cons a tl ih => exact regExt_trans (maybeAdd_regExt s a) (ih _)

/-- C9: `maybe_add_memid` is idempotent — calling it twice with the same token
returns the same index both times; a token not yet registered receives the next
unused index `len(index2memid)`; the issued indices are exactly the dense range
`0..N-1`; and an index once issued is never reassigned to a different token by
any later operation (any further `maybe_add_memid` calls and any number of
`update_map` batches leave every already-issued index naming the same token,
since nothing else ever writes the registry). -/
theorem maybe_add_memid_registry_props (s : PState) (tok : String)
    (toks : List String) (batches : List (Int × List Change)) (hw : RegWf s) :
    (maybeAddMemid (maybeAddMemid s tok).1 tok).2 = (maybeAddMemid s tok).2 ∧
    (alookup s.memid2index tok = none →
      (maybeAddMemid s tok).2 = s.index2memid.length) ∧
    ((maybeAddMemid s tok).1.memid2index.map Prod.snd =
      List.range (maybeAddMemid s tok).1.index2memid.length) ∧
    (∀ i, i < (maybeAddMemid s tok).1.index2memid.length →
      (applyBatches (toks.foldl (fun st tk => (maybeAddMemid st tk).1)
          (maybeAddMemid s tok).1) batches).index2memid.getD i "" =
        (maybeAddMemid s tok).1.index2memid.getD i "") := by
  refine ⟨?_, ?_, ?_, ?_⟩
  · unfold maybeAddMemid
    match hlk : alookup s.memid2index tok with
    | some idx => simp [hlk]
    | none =>
      simp only [hlk]
      rw [alookup_append]
      simp [hlk, alookup]
  · intro hnone
    unfold maybeAddMemid
    rw [hnone]
  · have hw' : RegWf (maybeAddMemid s tok).1 := hw.maybeAdd tok
    rw [hw'.1, regList_map_snd, List.range_eq_range']
  · intro i hi
    exact (regExt_trans (foldlAdd_regExt (maybeAddMemid s tok).1 toks)
      (applyBatches_regExt _ batches)).2 i hi

/-- Witness for C9 at a concrete state: the fresh field's registry is
well-formed and registering `"rock"` twice yields the same index. -/
theorem maybe_add_memid_registry_props_witness :
    RegWf (fresh "SELF" 1) ∧
    (maybeAddMemid (maybeAddMemid (fresh "SELF" 1) "rock").1 "rock").2 =
      (maybeAddMemid (fresh "SELF" 1) "rock").2 :=
  ⟨by decide,
   (maybe_add_memid_registry_props (fresh "SELF" 1) "rock" ["a"] [] (by decide)).1⟩

/-- C8: for all `i, j, h` with `0 ≤ i, j, h < MAX_MAP_SIZE`, decoding the
encoded scalar cell key returns the original triple:
`idx2ijh(ijh2idx(i, j, h)) == (i, j, h)`. -/
theorem encode_decode_bijection (i j h : Nat) (hi : i < MAX_MAP_SIZE)
    (hj : j < MAX_MAP_SIZE) (_hh : h < MAX_MAP_SIZE) :
    idx2ijh (ijh2idx i j h) = (i, j, h) :=
  idx2ijh_ijh2idx_general i j h hi hj

/-- Witness for C8 at the concrete triple `(5, 7, 9)`. -/
theorem encode_decode_bijection_witness :
    5 < MAX_MAP_SIZE ∧ 7 < MAX_MAP_SIZE ∧ 9 < MAX_MAP_SIZE ∧
      idx2ijh (ijh2idx 5 7 9) = (5, 7, 9) :=
  ⟨by decide, by decide, by decide,
   encode_decode_bijection 5 7 9 (by decide) (by decide) (by decide)⟩

theorem mapsGet_singleton {ms : List (Option Int × Slice)} {h : Option Int} {sl : Slice}
    (hlen : ms.length = 1) (hsl : mapsGet ms h = some sl) : ms = [(h, sl)] := by
  match ms with
  | [] => simp at hlen
  | [(k, s0)] =>
    simp only [mapsGet] at hsl
    by_cases hk : k = h
    · rw [if_pos hk] at hsl
      simp only [mapsGet, Option.some.injEq] at hsl
      rw [hk, hsl]
    · rw [if_neg hk] at hsl
      simp [mapsGet] at hsl
  | _ :: _ :: _ => simp at hlen

theorem option_some_getD {α : Type} (o : Option α) (d : α) (h : o.isSome = true) :
    o = some (o.getD d) := by
  match o with
  | none => simp at h
  | some v => rfl

/-- C7 (amended: `extension ≥ 1`): for every existing height slice, `extend_map`
either returns `-1` with the whole state unchanged (when the new side length
`w + 2*extension` would exceed `MAX_MAP_SIZE`), or pads all three arrays
symmetrically by `extension` on every side — existing content preserved
centered, border cells at the arrays' initial values (`0`, `0`, `-1`) — leaving
every other slice unchanged, and returns the new side length. -/
theorem extend_map_padding_spec (st : PState) (h : Option Int) (sl : Slice) (ext : Int)
    (hsl : mapsGet st.maps h = some sl) (hext : 1 ≤ ext) :
    (extendMap st h ext).2.2 = none ∧
    ((MAX_MAP_SIZE < sl.size + 2 * ext.toNat ∧
        (extendMap st h ext).2.1 = -1 ∧ (extendMap st h ext).1 = st) ∨
     (sl.size + 2 * ext.toNat ≤ MAX_MAP_SIZE ∧
        (extendMap st h ext).2.1 = ((sl.size + 2 * ext.toNat : Nat) : Int) ∧
        ∃ sl2, mapsGet (extendMap st h ext).1.maps h = some sl2 ∧
          sl2.size = sl.size + 2 * ext.toNat ∧
          (∀ a b, ext.toNat ≤ a → a < sl.size + ext.toNat → ext.toNat ≤ b →
            b < sl.size + ext.toNat →
              sl2.occ a b = sl.occ (a - ext.toNat) (b - ext.toNat) ∧
              sl2.memids a b = sl.memids (a - ext.toNat) (b - ext.toNat) ∧
              sl2.updated a b = sl.updated (a - ext.toNat) (b - ext.toNat)) ∧
          (∀ a b, a < ext.toNat ∨ sl.size + ext.toNat ≤ a ∨ b < ext.toNat ∨
            sl.size + ext.toNat ≤ b →
              sl2.occ a b = 0 ∧ sl2.memids a b = 0 ∧ sl2.updated a b = -1) ∧
          (∀ k, k ≠ h → mapsGet (extendMap st h ext).1.maps k = mapsGet st.maps k))) := by
  have hnneg : ¬ ext < 0 := by omega
  have hnz : ¬ ext = 0 := by omega
  have heff : effSliceKey st h = h := by
    unfold effSliceKey
    by_cases hc : (h = none ∨ h = some 0) ∧ st.maps.length = 1
    · rw [if_pos hc, mapsGet_singleton hc.2 hsl]
      rfl
    · rw [if_neg hc]
  unfold extendMap
  rw [if_neg hnneg, heff]
  unfold extendMapCore
  dsimp only
  rw [hsl]
  dsimp only
  by_cases hbig : MAX_MAP_SIZE < sl.size + 2 * ext.toNat
  · rw [if_pos hbig]
    exact ⟨rfl, Or.inl ⟨hbig, rfl, rfl⟩⟩
  · rw [if_neg hbig, if_neg hnz]
    refine ⟨rfl, Or.inr ⟨by omega, rfl, ?_⟩⟩
    refine ⟨_, mapsGet_mapsSet_self _ _ _, rfl, ?_, ?_, ?_⟩
    · intro a b h1 h2 h3 h4
      have hcond : ext.toNat ≤ a ∧ a < sl.size + ext.toNat ∧ ext.toNat ≤ b ∧
          b < sl.size + ext.toNat := ⟨h1, h2, h3, h4⟩
      refine ⟨?_, ?_, ?_⟩ <;> (unfold padFun; dsimp only; rw [if_pos hcond])
    · intro a b hout
      have hcond : ¬ (ext.toNat ≤ a ∧ a < sl.size + ext.toNat ∧ ext.toNat ≤ b ∧
          b < sl.size + ext.toNat) := by omega
      refine ⟨?_, ?_, ?_⟩ <;> (unfold padFun; dsimp only; rw [if_neg hcond])
    · intro k hk
      exact mapsGet_mapsSet_ne _ _ _ _ (fun he => hk he.symm)

/-- Witness for C7 at the fresh field's slice 0 with `extension = 1`. -/
theorem extend_map_padding_spec_witness :
    (extendMap (fresh "SELF" 1) (some 0) 1).2.2 = none :=
  (extend_map_padding_spec (fresh "SELF" 1) (some 0)
    ((mapsGet (fresh "SELF" 1).maps (some 0)).getD newSlice) 1
    (option_some_getD _ newSlice (by decide)) (by decide)).1

theorem fupd_eval {α : Type} (f : Nat → Nat → α) (i j : Nat) (v : α) (a b : Nat) :
    fupd f i j v a b = if a = i ∧ b = j then v else f a b :=
  rfl

/-- C10: when `delete_loc_by_memid` runs with `is_move` set for an identity
owning more than one cell, the exception fires only after the loop has already
cleared two of that identity's cells (`count` is incremented after each clear
and checked afterwards), and the trailing `memid2locs.pop` is skipped — the
state a caller observes when catching the exception has both cells zeroed in
the grid while the reverse index still lists all the identity's keys. -/
theorem delete_loc_by_memid_move_nonatomic
    (s : PState) (m : String) (t : Int) (k1 k2 : Nat) (rest : List Nat)
    (sl1 sl2 : Slice)
    (hm0 : ¬ m = "") (hm1 : ¬ m = "NULL")
    (hlocs : mlocsGet s.memid2locs m = k1 :: k2 :: rest)
    (hs1 : mapsGet s.maps (some ((idx2ijh k1).2.2 : Int)) = some sl1)
    (hs2 : mapsGet s.maps (some ((idx2ijh k2).2.2 : Int)) = some sl2) :
    (deleteLocByMemid s m t true).2 = some PyErr.exception ∧
    memidAt (deleteLocByMemid s m t true).1 (some ((idx2ijh k1).2.2 : Int))
      (idx2ijh k1).1 (idx2ijh k1).2.1 = some 0 ∧
    occAt (deleteLocByMemid s m t true).1 (some ((idx2ijh k1).2.2 : Int))
      (idx2ijh k1).1 (idx2ijh k1).2.1 = some 0 ∧
    memidAt (deleteLocByMemid s m t true).1 (some ((idx2ijh k2).2.2 : Int))
      (idx2ijh k2).1 (idx2ijh k2).2.1 = some 0 ∧
    occAt (deleteLocByMemid s m t true).1 (some ((idx2ijh k2).2.2 : Int))
      (idx2ijh k2).1 (idx2ijh k2).2.1 = some 0 ∧
    mlocsGet (deleteLocByMemid s m t true).1.memid2locs m = k1 :: k2 :: rest := by
  unfold deleteLocByMemid
  rw [if_neg hm0, if_neg hm1, hlocs]
  unfold clearCells
  dsimp only
  rw [hs1]
  dsimp only
  rw [if_neg (by decide : ¬ (true = true ∧ 1 < 0 + 1))]
  unfold clearCells
  dsimp only
  by_cases hkey : (some ((idx2ijh k2).2.2 : Int)) = (some ((idx2ijh k1).2.2 : Int))
  · rw [hkey, mapsGet_mapsSet_self]
    dsimp only
    rw [if_pos (by decide : true = true ∧ 1 < 0 + 1 + 1)]
    dsimp only
    refine ⟨rfl, ?_, ?_, ?_, ?_, hlocs⟩
    · simp only [memidAt]
      rw [mapsGet_mapsSet_self]
      simp [fupd_eval]
    · simp only [occAt]
      rw [mapsGet_mapsSet_self]
      simp [fupd_eval]
    · simp only [memidAt, hkey]
      rw [mapsGet_mapsSet_self]
      simp [fupd_eval]
    · simp only [occAt, hkey]
      rw [mapsGet_mapsSet_self]
      simp [fupd_eval]
  · rw [mapsGet_mapsSet_ne _ _ _ _ (fun he => hkey (congrArg some (Option.some.inj he).symm)),
      hs2]
    dsimp only
    rw [if_pos (by decide : true = true ∧ 1 < 0 + 1 + 1)]
    dsimp only
    refine ⟨rfl, ?_, ?_, ?_, ?_, hlocs⟩
    · simp only [memidAt]
      rw [mapsGet_mapsSet_ne _ _ _ _ hkey, mapsGet_mapsSet_self]
      simp [fupd_eval]
    · simp only [occAt]
      rw [mapsGet_mapsSet_ne _ _ _ _ hkey, mapsGet_mapsSet_self]
      simp [fupd_eval]
    · simp only [memidAt]
      rw [mapsGet_mapsSet_self]
      simp [fupd_eval]
    · simp only [occAt]
      rw [mapsGet_mapsSet_self]
      simp [fupd_eval]

def cInsA2 : Change := { pos := some (2, 0, 2), memid := "A" }

/-- Witness for C10: after inserting `"A"` at two cells, a move-mode delete of
`"A"` raises and leaves both keys in the reverse index. -/
theorem delete_loc_by_memid_move_nonatomic_witness :
    mlocsGet ((updateMap (fresh "SELF" 1) 0 [cInsA, cInsA2]).1).memid2locs "A" =
      ijh2idx 514 514 0 :: ijh2idx 515 515 0 :: [] ∧
    (deleteLocByMemid (updateMap (fresh "SELF" 1) 0 [cInsA, cInsA2]).1 "A" 9 true).2 =
      some PyErr.exception ∧
    mlocsGet (deleteLocByMemid (updateMap (fresh "SELF" 1) 0 [cInsA, cInsA2]).1 "A" 9
      true).1.memid2locs "A" = ijh2idx 514 514 0 :: ijh2idx 515 515 0 :: [] := by
  have hmain := delete_loc_by_memid_move_nonatomic
    ((updateMap (fresh "SELF" 1) 0 [cInsA, cInsA2]).1) "A" 9
    (ijh2idx 514 514 0) (ijh2idx 515 515 0) []
    ((mapsGet ((updateMap (fresh "SELF" 1) 0 [cInsA, cInsA2]).1).maps
        (some ((idx2ijh (ijh2idx 514 514 0)).2.2 : Int))).getD newSlice)
    ((mapsGet ((updateMap (fresh "SELF" 1) 0 [cInsA, cInsA2]).1).maps
        (some ((idx2ijh (ijh2idx 515 515 0)).2.2 : Int))).getD newSlice)
    (by decide) (by decide) (by decide)
    (option_some_getD _ newSlice (by decide))
    (option_some_getD _ newSlice (by decide))
  exact ⟨by decide, hmain.1, hmain.2.2.2.2.2⟩

theorem occAt_eval (s : PState) (h : Option Int) (i j : Nat) (sl : Slice)
    (hsl : mapsGet s.maps h = some sl) : occAt s h i j = some (sl.occ i j) := by
  unfold occAt
  rw [hsl]
  rfl

theorem memidAt_eval (s : PState) (h : Option Int) (i j : Nat) (sl : Slice)
    (hsl : mapsGet s.maps h = some sl) : memidAt s h i j = some (sl.memids i j) := by
  unfold memidAt
  rw [hsl]
  rfl

theorem ownerTokenAt_eval (s : PState) (h : Option Int) (i j : Nat) (sl : Slice)
    (hsl : mapsGet s.maps h = some sl) :
    ownerTokenAt s h i j = some (s.index2memid.getD (sl.memids i j) "") := by
  unfold ownerTokenAt
  rw [hsl]
  rfl

theorem maybeAdd_lookup_self (s : PState) (m : String) :
    alookup (maybeAddMemid s m).1.memid2index m = some (maybeAddMemid s m).2 := by
  unfold maybeAddMemid
  match hlk : alookup s.memid2index m with
  | some idx => simp [hlk]
  | none =>
    dsimp only
    rw [alookup_append, hlk]
    simp [alookup]

theorem maybeAdd_maps (s : PState) (m : String) :
    (maybeAddMemid s m).1.maps = s.maps := by
  unfold maybeAddMemid
  match alookup s.memid2index m with
  | some idx => rfl
  | none => rfl

theorem maybeAdd_memid2locs (s : PState) (m : String) :
    (maybeAddMemid s m).1.memid2locs = s.memid2locs := by
  unfold maybeAddMemid
  match alookup s.memid2index m with
  | some idx => rfl
  | none => rfl

theorem RegWf_of_fields {s s' : PState} (h1 : s'.index2memid = s.index2memid)
    (h2 : s'.memid2index = s.memid2index) (hw : RegWf s) : RegWf s' := by
  unfold RegWf at *
  rw [h1, h2]
  exact hw

/-- A move change record: `{pos: ..., memid: ..., is_move: True}`. -/
def moveChange (x y z : ℚ) (m : String) : Change :=
  { pos := some (x, y, z), memid := m, is_obstacle := true, is_move := true,
    is_delete := false }

/-- C6: for an identity owning exactly one cell (its reverse index holds
exactly the one key, encoding an in-bounds cell of slice 0), a move record to
an in-bounds target distinct from the old cell completes without error and
leaves: the old cell unoccupied with sentinel owner 0, the target cell occupied
and owned by the identity (a non-sentinel owner index), and the reverse index
for the identity holding exactly the target's key. -/
theorem move_keeps_single_owner
    (s : PState) (m : String) (t : Int) (x y z : ℚ) (i0 j0 : Nat) (sl0 : Slice)
    (iT jT : Int)
    (hw : RegWf s)
    (hm0 : ¬ m = "") (hm1 : ¬ m = "NULL")
    (hlocs : mlocsGet s.memid2locs m = [ijh2idx i0 j0 0])
    (hi0 : i0 < BIG_I) (hj0 : j0 < BIG_J)
    (hsl0 : mapsGet s.maps (some 0) = some sl0)
    (hr : real2map s x z (some 0) = some (iT, jT))
    (hg : gapOf s iT jT ≤ 0)
    (hne : ¬ (iT.toNat = i0 ∧ jT.toNat = j0)) :
    (updateChange s t (moveChange x y z m)).2 = none ∧
    occAt (updateChange s t (moveChange x y z m)).1 (some 0) i0 j0 = some 0 ∧
    memidAt (updateChange s t (moveChange x y z m)).1 (some 0) i0 j0 = some 0 ∧
    occAt (updateChange s t (moveChange x y z m)).1 (some 0) iT.toNat jT.toNat = some 1 ∧
    ownerTokenAt (updateChange s t (moveChange x y z m)).1 (some 0) iT.toNat jT.toNat =
      some m ∧
    memidAt (updateChange s t (moveChange x y z m)).1 (some 0) iT.toNat jT.toNat ≠
      some 0 ∧
    mlocsGet (updateChange s t (moveChange x y z m)).1.memid2locs m =
      [ijh2idx iT.toNat jT.toNat 0] := by
  have hd : idx2ijh (ijh2idx i0 j0 0) = (i0, j0, 0) :=
    idx2ijh_ijh2idx_general i0 j0 0 hi0 hj0
  unfold updateChange moveChange
  dsimp only [y2slice]
  rw [hr]
  dsimp only
  have hgrow : growIfNeeded s (gapOf s iT jT) = s := by
    unfold growIfNeeded
    rw [if_neg (by omega)]
  rw [hgrow, hr]
  dsimp only
  rw [if_neg (by omega : ¬ (0 : Int) < gapOf s iT jT)]
  unfold applyAt
  dsimp only
  rw [if_neg (by simp : ¬ (false = true))]
  unfold moveOrInsert
  dsimp only
  rw [if_pos rfl, if_neg hm1]
  unfold deleteLocByMemid
  rw [if_neg hm0, if_neg hm1, hlocs]
  unfold clearCells
  dsimp only
  rw [hd]
  dsimp only
  simp only [Nat.cast_zero]
  rw [hsl0]
  dsimp only
  rw [if_neg (by decide : ¬ (True ∧ 1 < 0 + 1))]
  unfold clearCells
  dsimp only
  unfold applyInsert
  dsimp only
  rw [maybeAdd_lookup_self]
  simp only [Option.getD_some]
  rw [maybeAdd_maps]
  dsimp only
  simp only [Int.toNat_zero, Nat.cast_zero]
  rw [mapsGet_mapsSet_self]
  dsimp only
  set s2 : PState :=
    { index2memid := s.index2memid, memid2index := s.memid2index,
      maps := mapsSet s.maps (some 0)
        { size := sl0.size, occ := fupd sl0.occ i0 j0 0,
          memids := fupd sl0.memids i0 j0 0, updated := fupd sl0.updated i0 j0 t },
      map_size := s.map_size, memid2locs := aerase s.memid2locs m,
      ppu := s.ppu } with hs2
  have hne' : ¬ (i0 = iT.toNat ∧ j0 = jT.toNat) := fun hp => hne ⟨hp.1.symm, hp.2.symm⟩
  have hws2 : RegWf s2 := RegWf_of_fields rfl rfl hw
  have hwA : RegWf (maybeAddMemid s2 m).1 := hws2.maybeAdd m
  have hlkA : alookup (maybeAddMemid s2 m).1.memid2index m =
      some (maybeAddMemid s2 m).2 := maybeAdd_lookup_self s2 m
  have hbound := hwA.lookup_bounds hlkA
  have hvne : (maybeAddMemid s2 m).2 ≠ 0 := hwA.nonzero_of_ne_null hlkA hm1
  have hlocsA : mlocsGet (maybeAddMemid s2 m).1.memid2locs m = [] := by
    rw [maybeAdd_memid2locs]
    show mlocsGet (aerase s.memid2locs m) m = []
    unfold mlocsGet
    rw [alookup_aerase_self]
    rfl
  refine ⟨rfl, ?_, ?_, ?_, ?_, ?_, ?_⟩
  · rw [occAt_eval _ _ _ _ _ (mapsGet_mapsSet_self _ _ _)]
    dsimp only
    rw [fupd_eval, if_neg hne', fupd_eval, if_pos ⟨rfl, rfl⟩]
  · rw [memidAt_eval _ _ _ _ _ (mapsGet_mapsSet_self _ _ _)]
    dsimp only
    rw [fupd_eval, if_neg hne', fupd_eval, if_pos ⟨rfl, rfl⟩]
  · rw [occAt_eval _ _ _ _ _ (mapsGet_mapsSet_self _ _ _)]
    dsimp only
    rw [fupd_eval, if_pos ⟨rfl, rfl⟩, if_pos trivial]
  · rw [ownerTokenAt_eval _ _ _ _ _ (mapsGet_mapsSet_self _ _ _)]
    dsimp only
    rw [fupd_eval, if_pos ⟨rfl, rfl⟩]
    exact congrArg some hbound.2
  · rw [memidAt_eval _ _ _ _ _ (mapsGet_mapsSet_self _ _ _)]
    dsimp only
    rw [fupd_eval, if_pos ⟨rfl, rfl⟩]
    exact fun he => hvne (Option.some.inj he)
  · show mlocsGet (aset (maybeAddMemid s2 m).1.memid2locs m
      (keysAdd (mlocsGet (maybeAddMemid s2 m).1.memid2locs m)
        (ijh2idx iT.toNat jT.toNat 0))) m = [ijh2idx iT.toNat jT.toNat 0]
    rw [hlocsA]
    unfold mlocsGet
    rw [alookup_aset_self]
    simp [keysAdd]

def c6setup : Change := { pos := some (2, 0, 3), memid := "rock1" }

def c6state : PState := (updateMap (fresh "SELF" 1) 0 [c6setup]).1

/-- Witness for C6: after inserting `"rock1"` at `(2, 0, 3)` (cell
`(515, 516)`), a move to `(5, 0, 5)` (cell `(518, 518)`) completes without
error, clears the old cell's occupancy and leaves the reverse index with
exactly the new key. -/
theorem move_keeps_single_owner_witness :
    mlocsGet c6state.memid2locs "rock1" = [ijh2idx 515 516 0] ∧
    (updateChange c6state 1 (moveChange 5 0 5 "rock1")).2 = none ∧
    occAt (updateChange c6state 1 (moveChange 5 0 5 "rock1")).1 (some 0) 515 516 =
      some 0 ∧
    mlocsGet (updateChange c6state 1 (moveChange 5 0 5 "rock1")).1.memid2locs "rock1" =
      [ijh2idx 518 518 0] := by
  have hmain := move_keeps_single_owner c6state "rock1" 1 5 0 5 515 516
    ((mapsGet c6state.maps (some 0)).getD newSlice) 518 518
    (by decide) (by decide) (by decide) (by decide) (by decide) (by decide)
    (option_some_getD _ newSlice (by decide)) (by decide) (by decide) (by decide)
  exact ⟨by decide, hmain.1, hmain.2.1, hmain.2.2.2.2.2.2⟩

/-! ### The owner → reverse-index invariant (for C1) -/

/-- A slice never exceeds `MAX_MAP_SIZE` and all owner entries outside its
tracked square are the sentinel 0 (the model's total functions are 0 beyond
the numpy array, and all writes are in-bounds). -/
def SliceWf (sl : Slice) : Prop :=
  sl.size ≤ MAX_MAP_SIZE ∧ ∀ i j, (sl.size ≤ i ∨ sl.size ≤ j) → sl.memids i j = 0

/-- Structural facts about the slice dict: each slice is well-formed; slices at
non-zero heights (only ever created by the `extend_map(s)` slip) carry no
owners; and `map_size` bounds slice 0 (writes are guarded by `map_size`). -/
def MapsWf (s : PState) : Prop :=
  (∀ k sl, mapsGet s.maps k = some sl → SliceWf sl) ∧
  (∀ z : Int, z ≠ 0 → ∀ sl, mapsGet s.maps (some z) = some sl → ∀ i j, sl.memids i j = 0) ∧
  (∀ sl, mapsGet s.maps (some 0) = some sl → s.map_size ≤ (sl.size : Int))

/-- Every stored owner index points into the registry. -/
def MemidsBound (s : PState) : Prop :=
  ∀ k sl, mapsGet s.maps k = some sl → ∀ i j, sl.memids i j < s.index2memid.length

/-- The forward direction of the C1 invariant: every cell with a non-sentinel
owner index has its encoded key recorded in `memid2locs` under the owner's
token. -/
def OwnerInLocs (s : PState) : Prop :=
  ∀ (h i j : Nat) (sl : Slice), mapsGet s.maps (some (h : Int)) = some sl →
    sl.memids i j ≠ 0 →
    ijh2idx i j h ∈ mlocsGet s.memid2locs (s.index2memid.getD (sl.memids i j) "")

def Inv (s : PState) : Prop := RegWf s ∧ MapsWf s ∧ MemidsBound s ∧ OwnerInLocs s

theorem RegWf.length_pos {s : PState} (hw : RegWf s) : 0 < s.index2memid.length := by
  obtain ⟨_, _, h3⟩ := hw
  match hl : s.index2memid with
  | [] => rw [hl] at h3; simp at h3
  | a :: tl => simp

theorem padFun_zero (w e : Nat) (a b : Nat) :
    padFun w e (0 : Nat) (fun _ _ => (0 : Nat)) a b = 0 := by
  unfold padFun
  split <;> rfl

/-- The grid relation established by the clearing loop: every slice present
afterwards was present before with the same size, owners pointwise unchanged
or zeroed. -/
def ZeroedFrom (m1 m0 : List (Option Int × Slice)) : Prop :=
  ∀ k sl', mapsGet m1 k = some sl' →
    ∃ sl, mapsGet m0 k = some sl ∧ sl'.size = sl.size ∧
      ∀ i j, sl'.memids i j = sl.memids i j ∨ sl'.memids i j = 0

theorem zeroedFrom_refl (m0 : List (Option Int × Slice)) : ZeroedFrom m0 m0 :=
  fun _ sl' h => ⟨sl', h, Eq.refl _, fun _ _ => Or.inl (Eq.refl _)⟩

theorem zeroedFrom_trans {m2 m1 m0 : List (Option Int × Slice)}
    (h21 : ZeroedFrom m2 m1) (h10 : ZeroedFrom m1 m0) : ZeroedFrom m2 m0 := by
  intro k sl2 h2
  obtain ⟨sl1, h1, hsz1, hmem1⟩ := h21 k sl2 h2
  obtain ⟨sl0, h0, hsz0, hmem0⟩ := h10 k sl1 h1
  refine ⟨sl0, h0, hsz1.trans hsz0, fun i j => ?_⟩
  rcases hmem1 i j with he | he
  · rcases hmem0 i j with he' | he'
    · exact Or.inl (he.trans he')
    · exact Or.inr (he.trans he')
  · exact Or.inr he

theorem ZeroedFrom.clearStep (m0 : List (Option Int × Slice)) (key : Option Int)
    (sl : Slice) (i j : Nat) (t : Int) (hsl : mapsGet m0 key = some sl) :
    ZeroedFrom (mapsSet m0 key
      { size := sl.size, occ := fupd sl.occ i j 0, memids := fupd sl.memids i j 0,
        updated := fupd sl.updated i j t }) m0 := by
  intro k sl' h'
  by_cases hk : key = k
  · subst hk
    rw [mapsGet_mapsSet_self] at h'
    obtain rfl := Option.some.inj h'
    refine ⟨sl, hsl, Eq.refl _, fun a b => ?_⟩
    dsimp only
    rw [fupd_eval]
    split
    · exact Or.inr (Eq.refl _)
    · exact Or.inl (Eq.refl _)
  · rw [mapsGet_mapsSet_ne _ _ _ _ hk] at h'
    exact ⟨sl', h', Eq.refl _, fun _ _ => Or.inl (Eq.refl _)⟩

theorem clearCells_zeroedFrom (t : Int) (im : Bool) (keys : List Nat)
    (maps0 : List (Option Int × Slice)) (cnt : Nat) :
    ZeroedFrom (clearCells maps0 t im keys cnt).1 maps0 := by
  induction keys generalizing maps0 cnt with
  | nil => exact zeroedFrom_refl maps0
  | cons k rest ih =>
    unfold clearCells
    dsimp only
    match hm : mapsGet maps0 (some ((idx2ijh k).2.2 : Int)) with
    | none => exact zeroedFrom_refl maps0
    | some sl =>
      dsimp only
      have hstep := ZeroedFrom.clearStep maps0 (some ((idx2ijh k).2.2 : Int)) sl
        (idx2ijh k).1 (idx2ijh k).2.1 t hm
      split
      · exact hstep
      · exact zeroedFrom_trans (ih _ _) hstep

/-- The clearing loop preserves slice presence and sizes. -/
theorem clearCells_keeps (t : Int) (im : Bool) (keys : List Nat)
    (maps0 : List (Option Int × Slice)) (cnt : Nat) (k : Option Int) (sl : Slice)
    (hsl : mapsGet maps0 k = some sl) :
    ∃ sl', mapsGet (clearCells maps0 t im keys cnt).1 k = some sl' ∧
      sl'.size = sl.size := by
  induction keys generalizing maps0 cnt sl with
  | nil => exact ⟨sl, hsl, Eq.refl _⟩
  | cons k0 rest ih =>
    unfold clearCells
    dsimp only
    match hm : mapsGet maps0 (some ((idx2ijh k0).2.2 : Int)) with
    | none => exact ⟨sl, hsl, Eq.refl _⟩
    | some sl0 =>
      dsimp only
      by_cases hk : (some ((idx2ijh k0).2.2 : Int)) = k
      · subst hk
        rw [hm] at hsl
        obtain rfl : sl0 = sl := Option.some.inj hsl
        split
        · exact ⟨_, mapsGet_mapsSet_self _ _ _, Eq.refl _⟩
        · obtain ⟨sl2, h1, h2⟩ := ih _ _ _ (mapsGet_mapsSet_self _ _ _)
          exact ⟨sl2, h1, h2⟩
      · have hpres : mapsGet (mapsSet maps0 (some ((idx2ijh k0).2.2 : Int))
            { size := sl0.size, occ := fupd sl0.occ (idx2ijh k0).1 (idx2ijh k0).2.1 0,
              memids := fupd sl0.memids (idx2ijh k0).1 (idx2ijh k0).2.1 0,
              updated := fupd sl0.updated (idx2ijh k0).1 (idx2ijh k0).2.1 t }) k =
            some sl := by
          rw [mapsGet_mapsSet_ne _ _ _ _ hk]
          exact hsl
        split
        · exact ⟨sl, hpres, Eq.refl _⟩
        · exact ih _ _ _ hpres

/-- When the clearing loop traverses all keys without raising, every key's
cell ends with sentinel owner 0. -/
theorem clearCells_clears (t : Int) (im : Bool) (keys : List Nat)
    (maps0 : List (Option Int × Slice)) (cnt : Nat)
    (hok : (clearCells maps0 t im keys cnt).2.2 = none) :
    ∀ k ∈ keys, ∀ sl', mapsGet (clearCells maps0 t im keys cnt).1
      (some ((idx2ijh k).2.2 : Int)) = some sl' →
      sl'.memids (idx2ijh k).1 (idx2ijh k).2.1 = 0 := by
  induction keys generalizing maps0 cnt with
  | nil => intro k hk; simp at hk
  | cons k0 rest ih =>
    intro k hk sl' hsl'
    unfold clearCells at hok hsl'
    dsimp only at hok hsl'
    match hm : mapsGet maps0 (some ((idx2ijh k0).2.2 : Int)) with
    | none =>
      rw [hm] at hok
      simp at hok
    | some sl0 =>
      rw [hm] at hok hsl'
      dsimp only at hok hsl'
      by_cases hcond : im = true ∧ 1 < cnt + 1
      · rw [if_pos hcond] at hok
        simp at hok
      · rw [if_neg hcond] at hok hsl'
        rcases List.mem_cons.mp hk with rfl | hkr
        · -- the head key: cleared in the first step, stays 0 afterwards
          have hmid : mapsGet (mapsSet maps0 (some ((idx2ijh k).2.2 : Int))
              { size := sl0.size, occ := fupd sl0.occ (idx2ijh k).1 (idx2ijh k).2.1 0,
                memids := fupd sl0.memids (idx2ijh k).1 (idx2ijh k).2.1 0,
                updated := fupd sl0.updated (idx2ijh k).1 (idx2ijh k).2.1 t })
              (some ((idx2ijh k).2.2 : Int)) = some
              { size := sl0.size, occ := fupd sl0.occ (idx2ijh k).1 (idx2ijh k).2.1 0,
                memids := fupd sl0.memids (idx2ijh k).1 (idx2ijh k).2.1 0,
                updated := fupd sl0.updated (idx2ijh k).1 (idx2ijh k).2.1 t } :=
            mapsGet_mapsSet_self _ _ _
          obtain ⟨slm, hslm, _hsz, hmem⟩ := clearCells_zeroedFrom t im rest _ (cnt + 1)
            (some ((idx2ijh k).2.2 : Int)) sl' hsl'
          rw [hmid] at hslm
          obtain rfl := Option.some.inj hslm
          rcases hmem (idx2ijh k).1 (idx2ijh k).2.1 with he | he
          · rw [he]
            dsimp only
            rw [fupd_eval, if_pos ⟨Eq.refl _, Eq.refl _⟩]
          · exact he
        · exact ih _ _ hok k hkr sl' hsl'

theorem maybeAdd_map_size (s : PState) (m : String) :
    (maybeAddMemid s m).1.map_size = s.map_size := by
  unfold maybeAddMemid
  match alookup s.memid2index m with
  | some idx => rfl
  | none => rfl

theorem Inv_maybeAdd {s : PState} (hI : Inv s) (m : String) : Inv (maybeAddMemid s m).1 := by
  obtain ⟨hw, hM, hB, hO⟩ := hI
  have hmap : (maybeAddMemid s m).1.maps = s.maps := maybeAdd_maps s m
  have hms : (maybeAddMemid s m).1.map_size = s.map_size := maybeAdd_map_size s m
  refine ⟨hw.maybeAdd m, ?_, ?_, ?_⟩
  · unfold MapsWf at *
    rw [hmap, hms]
    exact hM
  · unfold MemidsBound at *
    rw [hmap]
    intro k sl hsl i j
    exact lt_of_lt_of_le (hB k sl hsl i j) (maybeAdd_len_mono s m)
  · unfold OwnerInLocs at *
    rw [hmap, maybeAdd_memid2locs]
    intro h i j sl hsl hnz
    rw [maybeAdd_getD_stable s m _ (hB _ _ hsl i j)]
    exact hO h i j sl hsl hnz

theorem SliceWf.inBounds {sl : Slice} (hs : SliceWf sl) {i j : Nat}
    (hnz : sl.memids i j ≠ 0) : i < MAX_MAP_SIZE ∧ j < MAX_MAP_SIZE := by
  have h1 := hs.1
  constructor
  · by_contra hc
    exact hnz (hs.2 i j (Or.inl (by omega)))
  · by_contra hc
    exact hnz (hs.2 i j (Or.inr (by omega)))

theorem Inv_maybeDeleteLoc {s : PState} (hI : Inv s) (i j h : Nat) (t : Int)
    (memid : String) (hiB : i < BIG_I) (hjB : j < BIG_J) :
    Inv (maybeDeleteLoc s i j h t memid).1 := by
  obtain ⟨hw, hM, hB, hO⟩ := hI
  unfold maybeDeleteLoc
  match hm : mapsGet s.maps (some (h : Int)) with
  | none => exact ⟨hw, hM, hB, hO⟩
  | some sl =>
    dsimp only
    split
    · rw [hw.null_lookup]
      dsimp only
      have hwfsl : SliceWf sl := hM.1 _ _ hm
      -- the written slice
      refine ⟨RegWf_of_fields rfl rfl hw, ⟨?_, ?_, ?_⟩, ?_, ?_⟩
      · -- SliceWf for every slice
        intro k sl2 hsl2
        by_cases hk : (some (h : Int)) = k
        · subst hk
          rw [mapsGet_mapsSet_self] at hsl2
          obtain rfl := Option.some.inj hsl2
          refine ⟨hwfsl.1, fun a b hab => ?_⟩
          dsimp only
          rw [fupd_eval]
          split
          · rfl
          · exact hwfsl.2 a b hab
        · rw [mapsGet_mapsSet_ne _ _ _ _ hk] at hsl2
          exact hM.1 _ _ hsl2
      · -- nonzero heights have no owners
        intro z hz sl2 hsl2 a b
        by_cases hk : (some (h : Int)) = (some z)
        · rw [← hk] at hsl2
          rw [mapsGet_mapsSet_self] at hsl2
          obtain rfl := Option.some.inj hsl2
          dsimp only
          rw [fupd_eval]
          split
          · rfl
          · have := hM.2.1 z hz
            rw [← hk] at this
            exact this sl hm a b
        · rw [mapsGet_mapsSet_ne _ _ _ _ hk] at hsl2
          exact hM.2.1 z hz sl2 hsl2 a b
      · -- map_size still bounds slice 0
        intro sl2 hsl2
        by_cases hk : (some (h : Int)) = (some (0 : Int))
        · rw [← hk] at hsl2
          rw [mapsGet_mapsSet_self] at hsl2
          obtain rfl := Option.some.inj hsl2
          have := hM.2.2 sl
          rw [← hk] at this
          exact this hm
        · rw [mapsGet_mapsSet_ne _ _ _ _ hk] at hsl2
          exact hM.2.2 sl2 hsl2
      · -- owner indices stay in range
        intro k sl2 hsl2 a b
        by_cases hk : (some (h : Int)) = k
        · subst hk
          rw [mapsGet_mapsSet_self] at hsl2
          obtain rfl := Option.some.inj hsl2
          dsimp only
          rw [fupd_eval]
          split
          · exact hw.length_pos
          · exact hB _ _ hm a b
        · rw [mapsGet_mapsSet_ne _ _ _ _ hk] at hsl2
          exact hB _ _ hsl2 a b
      · -- the forward reverse-index invariant
        intro h2 a b sl2 hsl2 hnz
        show ijh2idx a b h2 ∈ mlocsGet _ (s.index2memid.getD (sl2.memids a b) "")
        have main : ∀ (slp : Slice), mapsGet s.maps (some (h2 : Int)) = some slp →
            slp.memids a b ≠ 0 → ijh2idx a b h2 ≠ ijh2idx i j h →
            ijh2idx a b h2 ∈ mlocsGet
              (if mlocsGet s.memid2locs memid = [] then s.memid2locs
               else if keyErase (mlocsGet s.memid2locs memid) (ijh2idx i j h) = [] then
                 aerase s.memid2locs memid
               else aset s.memid2locs memid
                 (keyErase (mlocsGet s.memid2locs memid) (ijh2idx i j h)))
              (s.index2memid.getD (slp.memids a b) "") := by
          intro slp hslp hnzp hkeyne
          have hpre := hO h2 a b slp hslp hnzp
          by_cases hks : mlocsGet s.memid2locs memid = []
          · rw [if_pos hks]
            exact hpre
          · rw [if_neg hks]
            by_cases hXm : s.index2memid.getD (slp.memids a b) "" = memid
            · rw [hXm] at hpre ⊢
              have hmem' : ijh2idx a b h2 ∈
                  keyErase (mlocsGet s.memid2locs memid) (ijh2idx i j h) :=
                mem_keyErase_of_mem_ne hpre hkeyne
              by_cases hks' : keyErase (mlocsGet s.memid2locs memid) (ijh2idx i j h) = []
              · rw [hks'] at hmem'
                simp at hmem'
              · rw [if_neg hks']
                unfold mlocsGet
                rw [alookup_aset_self]
                exact hmem'
            · split
              · unfold mlocsGet
                rw [alookup_aerase_ne _ _ _ (fun he => hXm he.symm)]
                exact hpre
              · unfold mlocsGet
                rw [alookup_aset_ne _ _ _ _ (fun he => hXm he.symm)]
                exact hpre
        by_cases hk : (some (h : Int)) = (some (h2 : Int))
        · have hh : h = h2 := by
            have := Option.some.inj hk
            exact_mod_cast this
          subst hh
          rw [mapsGet_mapsSet_self] at hsl2
          obtain rfl := Option.some.inj hsl2
          dsimp only at hnz ⊢
          rw [fupd_eval] at hnz ⊢
          by_cases hab : a = i ∧ b = j
          · rw [if_pos hab] at hnz
            exact absurd (Eq.refl 0) hnz
          · rw [if_neg hab] at hnz ⊢
            have hbnd := hwfsl.inBounds hnz
            refine main sl hm hnz (fun he => hab ?_)
            obtain ⟨h1, h2', _⟩ := ijh2idx_inj hbnd.1 hbnd.2 hiB hjB he
            exact ⟨h1, h2'⟩
        · rw [mapsGet_mapsSet_ne _ _ _ _ hk] at hsl2
          have hbnd := (hM.1 _ _ hsl2).inBounds hnz
          refine main sl2 hsl2 hnz (fun he => ?_)
          obtain ⟨_, _, hh⟩ := ijh2idx_inj hbnd.1 hbnd.2 hiB hjB he
          exact hk (by rw [hh])
    · exact ⟨hw, hM, hB, hO⟩

theorem zeroedFrom_SliceWf {m1 m0 : List (Option Int × Slice)} (hz : ZeroedFrom m1 m0)
    (h0 : ∀ k sl, mapsGet m0 k = some sl → SliceWf sl) :
    ∀ k sl, mapsGet m1 k = some sl → SliceWf sl := by
  intro k sl' h'
  obtain ⟨sl, hsl, hsz, hmem⟩ := hz k sl' h'
  refine ⟨by rw [hsz]; exact (h0 k sl hsl).1, fun i j hij => ?_⟩
  rcases hmem i j with he | he
  · rw [he]
    rw [hsz] at hij
    exact (h0 k sl hsl).2 i j hij
  · exact he

theorem Inv_deleteLocByMemid {s : PState} (hI : Inv s) (m : String) (t : Int) (im : Bool) :
    Inv (deleteLocByMemid s m t im).1 := by
  obtain ⟨hw, hM, hB, hO⟩ := hI
  unfold deleteLocByMemid
  split
  · exact ⟨hw, hM, hB, hO⟩
  · split
    · exact ⟨hw, hM, hB, hO⟩
    · dsimp only
      have hzf : ZeroedFrom
          (clearCells s.maps t im (mlocsGet s.memid2locs m) 0).1 s.maps :=
        clearCells_zeroedFrom t im _ s.maps 0
      have hMW1 := zeroedFrom_SliceWf hzf hM.1
      have hMW2 : ∀ z : Int, z ≠ 0 → ∀ sl,
          mapsGet (clearCells s.maps t im (mlocsGet s.memid2locs m) 0).1 (some z) =
            some sl → ∀ i j, sl.memids i j = 0 := by
        intro z hzne sl' h' i j
        obtain ⟨sl, hsl, _hsz, hmem⟩ := hzf _ sl' h'
        rcases hmem i j with he | he
        · rw [he]
          exact hM.2.1 z hzne sl hsl i j
        · exact he
      have hMW3 : ∀ sl, mapsGet (clearCells s.maps t im
          (mlocsGet s.memid2locs m) 0).1 (some 0) = some sl →
          s.map_size ≤ (sl.size : Int) := by
        intro sl' h'
        obtain ⟨sl, hsl, hsz, _⟩ := hzf _ sl' h'
        rw [hsz]
        exact hM.2.2 sl hsl
      have hBd : ∀ k sl, mapsGet (clearCells s.maps t im
          (mlocsGet s.memid2locs m) 0).1 k = some sl →
          ∀ i j, sl.memids i j < s.index2memid.length := by
        intro k sl' h' i j
        obtain ⟨sl, hsl, _hsz, hmem⟩ := hzf k sl' h'
        rcases hmem i j with he | he
        · rw [he]
          exact hB k sl hsl i j
        · rw [he]
          exact hw.length_pos
      match hok : (clearCells s.maps t im (mlocsGet s.memid2locs m) 0).2.2 with
      | some e =>
        refine ⟨RegWf_of_fields rfl rfl hw, ⟨hMW1, hMW2, hMW3⟩, hBd, ?_⟩
        intro h2 a b sl2 hsl2 hnz
        obtain ⟨sl, hsl, _hsz, hmem⟩ := hzf _ sl2 hsl2
        rcases hmem a b with he | he
        · rw [he] at hnz ⊢
          exact hO h2 a b sl hsl hnz
        · exact absurd he hnz
      | none =>
        refine ⟨RegWf_of_fields rfl rfl hw, ⟨hMW1, hMW2, hMW3⟩, hBd, ?_⟩
        intro h2 a b sl2 hsl2 hnz
        obtain ⟨sl, hsl, _hsz, hmem⟩ := hzf _ sl2 hsl2
        rcases hmem a b with he | he
        case _ =>
          rw [he] at hnz ⊢
          have hpre := hO h2 a b sl hsl hnz
          by_cases hXm : s.index2memid.getD (sl.memids a b) "" = m
          · -- every cell owned by m was cleared by the full traversal
            exfalso
            rw [hXm] at hpre
            have hbnd := (hM.1 _ _ hsl).inBounds hnz
            have hclr := clearCells_clears t im (mlocsGet s.memid2locs m) s.maps 0 hok
              (ijh2idx a b h2) hpre sl2
            rw [idx2ijh_ijh2idx_general a b h2 hbnd.1 hbnd.2] at hclr
            have h0 : sl2.memids a b = 0 := hclr hsl2
            rw [he] at h0
            exact hnz h0
          · show ijh2idx a b h2 ∈
              mlocsGet (aerase s.memid2locs m) (s.index2memid.getD (sl.memids a b) "")
            unfold mlocsGet
            rw [alookup_aerase_ne _ _ _ (fun heq => hXm heq.symm)]
            exact hpre
        case _ => exact absurd he hnz

/-- Installing a slice with no owners at a non-zero height key preserves the
invariant. -/
theorem Inv_setZeroSlice {s : PState} (hI : Inv s) (g : Int) (hg : g ≠ 0) (sl : Slice)
    (hsz : sl.size ≤ MAX_MAP_SIZE) (hz : ∀ i j, sl.memids i j = 0) :
    Inv { s with maps := mapsSet s.maps (some g) sl } := by
  obtain ⟨hw, hM, hB, hO⟩ := hI
  refine ⟨RegWf_of_fields rfl rfl hw, ⟨?_, ?_, ?_⟩, ?_, ?_⟩
  · intro k sl2 hsl2
    by_cases hk : (some g : Option Int) = k
    · subst hk
      rw [mapsGet_mapsSet_self] at hsl2
      obtain rfl := Option.some.inj hsl2
      exact ⟨hsz, fun i j _ => hz i j⟩
    · rw [mapsGet_mapsSet_ne _ _ _ _ hk] at hsl2
      exact hM.1 _ _ hsl2
  · intro z hzne sl2 hsl2 a b
    by_cases hk : (some g : Option Int) = some z
    · rw [← hk, mapsGet_mapsSet_self] at hsl2
      obtain rfl := Option.some.inj hsl2
      exact hz a b
    · rw [mapsGet_mapsSet_ne _ _ _ _ hk] at hsl2
      exact hM.2.1 z hzne sl2 hsl2 a b
  · intro sl2 hsl2
    have hk : (some g : Option Int) ≠ some 0 := fun he => hg (Option.some.inj he)
    rw [mapsGet_mapsSet_ne _ _ _ _ hk] at hsl2
    exact hM.2.2 sl2 hsl2
  · intro k sl2 hsl2 a b
    by_cases hk : (some g : Option Int) = k
    · subst hk
      rw [mapsGet_mapsSet_self] at hsl2
      obtain rfl := Option.some.inj hsl2
      rw [hz a b]
      exact hw.length_pos
    · rw [mapsGet_mapsSet_ne _ _ _ _ hk] at hsl2
      exact hB _ _ hsl2 a b
  · intro h2 a b sl2 hsl2 hnz
    by_cases hk : (some g : Option Int) = some (h2 : Int)
    · rw [← hk, mapsGet_mapsSet_self] at hsl2
      obtain rfl := Option.some.inj hsl2
      exact absurd (hz a b) hnz
    · rw [mapsGet_mapsSet_ne _ _ _ _ hk] at hsl2
      exact hO h2 a b sl2 hsl2 hnz

theorem Inv_growIfNeeded {s : PState} (hI : Inv s) (g : Int) : Inv (growIfNeeded s g) := by
  unfold growIfNeeded
  split
  case isTrue hg =>
    unfold extendMap
    rw [if_neg (by omega : ¬ (1 : Int) < 0)]
    have heff : effSliceKey s (some g) = some g := by
      unfold effSliceKey
      rw [if_neg]
      rintro ⟨hor, _⟩
      rcases hor with he | he
      · exact Option.noConfusion he
      · exact absurd (Option.some.inj he) (by omega)
    rw [heff]
    unfold extendMapCore
    dsimp only
    match hmg : mapsGet s.maps (some g) with
    | some slg =>
      dsimp only
      have hz0 : ∀ i j, slg.memids i j = 0 := hI.2.1.2.1 g (by omega) slg hmg
      split
      · exact hI
      · rw [if_neg (by decide : ¬ (1 : Int) = 0)]
        refine Inv_setZeroSlice hI g (by omega) _ ?_ ?_
        · next hbig =>
            show slg.size + 2 * (1 : Int).toNat ≤ MAX_MAP_SIZE
            omega
        · intro a b
          show padFun slg.size (1 : Int).toNat 0 slg.memids a b = 0
          unfold padFun
          split
          · exact hz0 _ _
          · rfl
    | none =>
      dsimp only
      rw [if_neg (by decide :
        ¬ MAX_MAP_SIZE < newSlice.size + 2 * (1 : Int).toNat)]
      rw [if_neg (by decide : ¬ (1 : Int) = 0)]
      have hstep1 : Inv { s with maps := mapsSet s.maps (some g) newSlice } :=
        Inv_setZeroSlice hI g (by omega) newSlice (by decide) (fun _ _ => rfl)
      have hstep2 := Inv_setZeroSlice hstep1 g (by omega)
        { size := newSlice.size + 2 * (1 : Int).toNat
          occ := padFun newSlice.size (1 : Int).toNat 0 newSlice.occ
          memids := padFun newSlice.size (1 : Int).toNat 0 newSlice.memids
          updated := padFun newSlice.size (1 : Int).toNat (-1) newSlice.updated }
        (by decide)
        (fun a b => by
          show padFun newSlice.size (1 : Int).toNat 0 newSlice.memids a b = 0
          unfold padFun
          split
          · rfl
          · rfl)
      exact hstep2
  case isFalse => exact hI

theorem Inv_applyInsert {s : PState} (hI : Inv s) (t : Int) (c : Change) (i j : Nat)
    (hb : ∀ sl, mapsGet s.maps (some ((0 : Nat) : Int)) = some sl →
      i < sl.size ∧ j < sl.size) :
    Inv (applyInsert s t c 0 i j).1 := by
  have hIA : Inv (maybeAddMemid s c.memid).1 := Inv_maybeAdd hI c.memid
  obtain ⟨hwA, hMA, hBA, hOA⟩ := hIA
  obtain ⟨hw, hM, hB, hO⟩ := hI
  unfold applyInsert
  dsimp only
  rw [maybeAdd_lookup_self]
  simp only [Option.getD_some]
  match hms : mapsGet (maybeAddMemid s c.memid).1.maps (some ((0 : Nat) : Int)) with
  | none => exact ⟨hwA, hMA, hBA, hOA⟩
  | some sl =>
    dsimp only
    have hbA : i < sl.size ∧ j < sl.size := by
      refine hb sl ?_
      rw [← maybeAdd_maps s c.memid]
      exact hms
    have hvlt : (maybeAddMemid s c.memid).2 < (maybeAddMemid s c.memid).1.index2memid.length :=
      (hwA.lookup_bounds (maybeAdd_lookup_self s c.memid)).1
    refine ⟨RegWf_of_fields rfl rfl hwA, ⟨?_, ?_, ?_⟩, ?_, ?_⟩
    · intro k sl2 hsl2
      by_cases hk : (some ((0 : Nat) : Int) : Option Int) = k
      · subst hk
        rw [mapsGet_mapsSet_self] at hsl2
        obtain rfl := Option.some.inj hsl2
        refine ⟨(hMA.1 _ _ hms).1, fun a b hab => ?_⟩
        have hab' : sl.size ≤ a ∨ sl.size ≤ b := hab
        dsimp only
        rw [fupd_eval, if_neg ?_]
        · exact (hMA.1 _ _ hms).2 a b hab'
        · rintro ⟨rfl, rfl⟩
          rcases hab' with hc | hc
          · omega
          · omega
      · rw [mapsGet_mapsSet_ne _ _ _ _ hk] at hsl2
        exact hMA.1 _ _ hsl2
    · intro z hzne sl2 hsl2 a b
      have hk : (some ((0 : Nat) : Int) : Option Int) ≠ some z := by
        simp only [Nat.cast_zero]
        exact fun he => hzne (Option.some.inj he).symm
      rw [mapsGet_mapsSet_ne _ _ _ _ hk] at hsl2
      exact hMA.2.1 z hzne sl2 hsl2 a b
    · intro sl2 hsl2
      have hk : (some ((0 : Nat) : Int) : Option Int) = some 0 := by
        simp
      rw [hk, mapsGet_mapsSet_self] at hsl2
      obtain rfl := Option.some.inj hsl2
      have := hMA.2.2 sl
      rw [← hk] at this
      exact this hms
    · intro k sl2 hsl2 a b
      by_cases hk : (some ((0 : Nat) : Int) : Option Int) = k
      · subst hk
        rw [mapsGet_mapsSet_self] at hsl2
        obtain rfl := Option.some.inj hsl2
        dsimp only
        rw [fupd_eval]
        split
        · exact hvlt
        · exact hBA _ _ hms a b
      · rw [mapsGet_mapsSet_ne _ _ _ _ hk] at hsl2
        exact hBA _ _ hsl2 a b
    · intro h2 a b sl2 hsl2 hnz
      by_cases hk : (some ((0 : Nat) : Int) : Option Int) = some (h2 : Int)
      · have hh2 : (0 : Nat) = h2 := by
          have := Option.some.inj hk
          exact_mod_cast this
        subst hh2
        rw [mapsGet_mapsSet_self] at hsl2
        obtain rfl := Option.some.inj hsl2
        dsimp only at hnz ⊢
        rw [fupd_eval] at hnz ⊢
        by_cases hab : a = i ∧ b = j
        · rw [if_pos hab]
          obtain ⟨rfl, rfl⟩ := hab
          rw [(hwA.lookup_bounds (maybeAdd_lookup_self s c.memid)).2]
          unfold mlocsGet
          rw [alookup_aset_self]
          exact mem_keysAdd_self _ _
        · rw [if_neg hab] at hnz ⊢
          have hpre := hOA 0 a b sl hms hnz
          by_cases hXm : (maybeAddMemid s c.memid).1.index2memid.getD (sl.memids a b) ""
              = c.memid
          · rw [hXm] at hpre ⊢
            unfold mlocsGet
            rw [alookup_aset_self]
            exact mem_keysAdd_of_mem _ hpre
          · show _ ∈ mlocsGet (aset (maybeAddMemid s c.memid).1.memid2locs c.memid _) _
            unfold mlocsGet
            rw [alookup_aset_ne _ _ _ _ (fun he => hXm he.symm)]
            exact hpre
      · rw [mapsGet_mapsSet_ne _ _ _ _ hk] at hsl2
        have hpre := hOA h2 a b sl2 hsl2 hnz
        by_cases hXm : (maybeAddMemid s c.memid).1.index2memid.getD (sl2.memids a b) ""
            = c.memid
        · rw [hXm] at hpre ⊢
          unfold mlocsGet
          rw [alookup_aset_self]
          exact mem_keysAdd_of_mem _ hpre
        · show _ ∈ mlocsGet (aset (maybeAddMemid s c.memid).1.memid2locs c.memid _) _
          unfold mlocsGet
          rw [alookup_aset_ne _ _ _ _ (fun he => hXm he.symm)]
          exact hpre

theorem deleteLocByMemid_zeroedFrom (s : PState) (m : String) (t : Int) (im : Bool) :
    ZeroedFrom (deleteLocByMemid s m t im).1.maps s.maps := by
  unfold deleteLocByMemid
  split
  · exact zeroedFrom_refl s.maps
  · split
    · exact zeroedFrom_refl s.maps
    · dsimp only
      split
      · exact clearCells_zeroedFrom t im _ s.maps 0
      · exact clearCells_zeroedFrom t im _ s.maps 0

theorem Inv_moveOrInsert {s : PState} (hI : Inv s) (t : Int) (c : Change) (i j : Nat)
    (hb : ∀ sl, mapsGet s.maps (some ((0 : Nat) : Int)) = some sl →
      i < sl.size ∧ j < sl.size) :
    Inv (moveOrInsert s t c 0 i j).1 := by
  unfold moveOrInsert
  split
  · split
    · exact hI
    · split
      · next s2 e heq =>
        have h2 := Inv_deleteLocByMemid hI c.memid t true
        rw [heq] at h2
        exact h2
      · next s2 heq =>
        have h2 : Inv s2 := by
          have := Inv_deleteLocByMemid hI c.memid t true
          rw [heq] at this
          exact this
        refine Inv_applyInsert h2 t c i j ?_
        intro sl hsl
        have hzf := deleteLocByMemid_zeroedFrom s c.memid t true
        rw [heq] at hzf
        obtain ⟨sl0, hsl0, hsz, _⟩ := hzf _ sl hsl
        rw [hsz]
        exact hb sl0 hsl0
  · exact Inv_applyInsert hI t c i j hb

theorem Inv_applyAt {s : PState} (hI : Inv s) (t : Int) (c : Change) (i j : Nat)
    (hiB : i < BIG_I) (hjB : j < BIG_J)
    (hb : ∀ sl, mapsGet s.maps (some ((0 : Nat) : Int)) = some sl →
      i < sl.size ∧ j < sl.size) :
    Inv (applyAt s t c 0 i j).1 := by
  unfold applyAt
  split
  · exact Inv_maybeDeleteLoc hI i j 0 t c.memid hiB hjB
  · exact Inv_moveOrInsert hI t c i j hb

theorem real2map_some_slice (s : PState) (x z : ℚ) (h : Option Int) (p : Int × Int)
    (he : real2map s x z h = some p) : ∃ sl, mapsGet s.maps h = some sl := by
  unfold real2map at he
  match hm : mapsGet s.maps h with
  | none =>
    rw [hm] at he
    exact Option.noConfusion he
  | some sl => exact ⟨sl, Eq.refl _⟩

theorem Inv_updateChange {s : PState} (hI : Inv s) (t : Int) (c : Change) :
    Inv (updateChange s t c).1 := by
  unfold updateChange
  dsimp only
  split
  · split
    · exact hI
    · split
      · exact hI
      · exact Inv_deleteLocByMemid hI c.memid t false
  · simp only [y2slice, Int.toNat_zero]
    split
    · exact hI
    · next i0 j0 _heq1 =>
      set s1 := growIfNeeded s (gapOf s i0 j0) with hs1def
      have hI1 : Inv s1 := Inv_growIfNeeded hI _
      split
      · exact hI1
      · next i2 j2 heq2 =>
        split
        · exact hI1
        · next hguard =>
          obtain ⟨sl0, hsl0⟩ := real2map_some_slice _ _ _ _ _ heq2
          have hsl0' : mapsGet s1.maps (some ((0 : Nat) : Int)) = some sl0 := hsl0
          have hms : s1.map_size ≤ (sl0.size : Int) :=
            hI1.2.1.2.2 sl0 (by exact_mod_cast hsl0')
          have hszB : sl0.size ≤ MAX_MAP_SIZE := (hI1.2.1.1 _ _ hsl0').1
          simp only [gapOf, not_lt, max_le_iff] at hguard
          obtain ⟨⟨hg1, hg2⟩, hg3, hg4⟩ := hguard
          refine Inv_applyAt hI1 t c i2.toNat j2.toNat ?_ ?_ ?_
          · show i2.toNat < MAX_MAP_SIZE
            omega
          · show j2.toNat < MAX_MAP_SIZE
            omega
          · intro sl hsl
            rw [hsl0'] at hsl
            obtain rfl := Option.some.inj hsl
            constructor
            · omega
            · omega

theorem Inv_updateMap {s : PState} (hI : Inv s) (t : Int) (cs : List Change) :
    Inv (updateMap s t cs).1 := by
  induction cs generalizing s with
  | nil => exact hI
  | cons c rest ih =>
    unfold updateMap
    match hch : updateChange s t c with
    | (s', none) =>
      have h1 : Inv s' := by
        have := Inv_updateChange hI t c
        rw [hch] at this
        exact this
      exact ih h1
    | (s', some e) =>
      have := Inv_updateChange hI t c
      rw [hch] at this
      exact this

theorem Inv_applyBatches {s : PState} (hI : Inv s)
    (batches : List (Int × List Change)) : Inv (applyBatches s batches) := by
  induction batches generalizing s with
  | nil => exact hI
  | cons b rest ih =>
    unfold applyBatches
    simp only [List.foldl_cons]
    exact ih (Inv_updateMap hI b.1 b.2)

/-- The slice a fresh `PlaceField` holds at height 0: the initial 1025-array
padded once by the `extend_map` call in `__init__`. -/
def initialSlice : Slice :=
  { size := newSlice.size + 2 * (1 : Int).toNat
    occ := padFun newSlice.size (1 : Int).toNat 0 newSlice.occ
    memids := padFun newSlice.size (1 : Int).toNat 0 newSlice.memids
    updated := padFun newSlice.size (1 : Int).toNat (-1) newSlice.updated }

theorem extendMap_empty_maps (st : PState) (hm : st.maps = []) :
    (extendMap st (some 0) 1).1.maps = [(some 0, initialSlice)] ∧
    (extendMap st (some 0) 1).2.1 = ((newSlice.size + 2 * (1 : Int).toNat : Nat) : Int) := by
  unfold extendMap
  rw [if_neg (by decide : ¬ (1 : Int) < 0)]
  have heff : effSliceKey st (some 0) = some 0 := by
    unfold effSliceKey
    rw [hm]
    simp
  rw [heff]
  unfold extendMapCore
  dsimp only
  rw [hm]
  simp only [mapsGet]
  rw [if_neg (by decide : ¬ MAX_MAP_SIZE < newSlice.size + 2 * (1 : Int).toNat)]
  rw [if_neg (by decide : ¬ (1 : Int) = 0)]
  simp only [mapsSet]
  refine ⟨?_, trivial⟩
  rw [if_pos trivial]
  rfl

theorem initialSlice_memids (a b : Nat) : initialSlice.memids a b = 0 := by
  show padFun newSlice.size (1 : Int).toNat 0 newSlice.memids a b = 0
  unfold padFun
  split
  · rfl
  · rfl

theorem fresh_components (selfM : String) (ppu : Int) :
    (fresh selfM ppu).maps = [(some 0, initialSlice)] ∧
    (fresh selfM ppu).map_size = ((newSlice.size + 2 * (1 : Int).toNat : Nat) : Int) ∧
    (fresh selfM ppu).memid2locs = [] ∧
    RegWf (fresh selfM ppu) := by
  unfold fresh
  dsimp only
  set s0 : PState :=
    { index2memid := [], memid2index := [], maps := [], map_size := 0,
      memid2locs := [], ppu := ppu } with hs0
  have hs1 : (maybeAddMemid s0 "NULL").1 =
      { index2memid := ["NULL"], memid2index := [("NULL", 0)], maps := [],
        map_size := 0, memid2locs := [], ppu := ppu } := rfl
  have hw1 : RegWf (maybeAddMemid s0 "NULL").1 := by
    rw [hs1]
    refine ⟨rfl, by simp, rfl⟩
  have hw2 : RegWf (maybeAddMemid (maybeAddMemid s0 "NULL").1 selfM).1 :=
    hw1.maybeAdd selfM
  have hmaps2 : (maybeAddMemid (maybeAddMemid s0 "NULL").1 selfM).1.maps = [] := by
    rw [maybeAdd_maps, maybeAdd_maps]
  have hlocs2 : (maybeAddMemid (maybeAddMemid s0 "NULL").1 selfM).1.memid2locs = [] := by
    rw [maybeAdd_memid2locs, maybeAdd_memid2locs]
  obtain ⟨hcm, hcr⟩ := extendMap_empty_maps _ hmaps2
  refine ⟨hcm, hcr, ?_, ?_⟩
  · rw [extendMap_memid2locs]
    exact hlocs2
  · refine RegWf_of_fields ?_ ?_ hw2
    · exact extendMap_index2memid _ _ _
    · exact extendMap_memid2index _ _ _

theorem Inv_fresh (selfM : String) (ppu : Int) : Inv (fresh selfM ppu) := by
  obtain ⟨hmaps, hms, hlocs, hw⟩ := fresh_components selfM ppu
  refine ⟨hw, ⟨?_, ?_, ?_⟩, ?_, ?_⟩
  · intro k sl hsl
    rw [hmaps] at hsl
    unfold mapsGet at hsl
    by_cases hk : (some (0 : Int) : Option Int) = k
    · rw [if_pos hk] at hsl
      obtain rfl := Option.some.inj hsl
      exact ⟨by decide, fun i j _ => initialSlice_memids i j⟩
    · rw [if_neg hk] at hsl
      exact Option.noConfusion hsl
  · intro z hz sl hsl a b
    rw [hmaps] at hsl
    unfold mapsGet at hsl
    rw [if_neg (fun he => hz (Option.some.inj he).symm)] at hsl
    exact Option.noConfusion hsl
  · intro sl hsl
    rw [hmaps] at hsl
    unfold mapsGet at hsl
    rw [if_pos (Eq.refl _)] at hsl
    obtain rfl := Option.some.inj hsl
    rw [hms]
    decide
  · intro k sl hsl a b
    rw [hmaps] at hsl
    unfold mapsGet at hsl
    by_cases hk : (some (0 : Int) : Option Int) = k
    · rw [if_pos hk] at hsl
      obtain rfl := Option.some.inj hsl
      rw [initialSlice_memids]
      exact hw.length_pos
    · rw [if_neg hk] at hsl
      exact Option.noConfusion hsl
  · intro h2 a b sl hsl hnz
    rw [hmaps] at hsl
    unfold mapsGet at hsl
    by_cases hk : (some (0 : Int) : Option Int) = some (h2 : Int)
    · rw [if_pos hk] at hsl
      obtain rfl := Option.some.inj hsl
      exact absurd (initialSlice_memids a b) hnz
    · rw [if_neg hk] at hsl
      exact Option.noConfusion hsl

/-- C1 (amended): after any sequence of `update_map` batches starting from a
fresh `PlaceField`, every cell whose owner field is a non-sentinel index has
its encoded key present in `memid2locs` under the owner's token.  (Only this
forward direction holds: the converse fails on the code because overwriting a
cell and sentinel-memid deletes leave stale keys behind — see the
counterexample.) -/
theorem owner_has_reverse_index_entry (selfM : String) (ppu : Int)
    (batches : List (Int × List Change)) (h i j : Nat) (sl : Slice)
    (hsl : mapsGet (applyBatches (fresh selfM ppu) batches).maps (some (h : Int)) =
      some sl)
    (hnz : sl.memids i j ≠ 0) :
    ijh2idx i j h ∈ mlocsGet (applyBatches (fresh selfM ppu) batches).memid2locs
      ((applyBatches (fresh selfM ppu) batches).index2memid.getD (sl.memids i j) "") :=
  (Inv_applyBatches (Inv_fresh selfM ppu) batches).2.2.2 h i j sl hsl hnz

/-- Witness for C1's amended theorem: after one batch inserting `"A"` at
`(1, 0, 1)` (cell `(514, 514)`), the cell's owner is non-sentinel and its key
is in the reverse index under the owner's token. -/
theorem owner_has_reverse_index_entry_witness :
    ((mapsGet (applyBatches (fresh "SELF" 1) [(5, [cInsA])]).maps
        (some ((0 : Nat) : Int))).getD newSlice).memids 514 514 ≠ 0 ∧
    ijh2idx 514 514 0 ∈
      mlocsGet (applyBatches (fresh "SELF" 1) [(5, [cInsA])]).memid2locs
        ((applyBatches (fresh "SELF" 1) [(5, [cInsA])]).index2memid.getD
          (((mapsGet (applyBatches (fresh "SELF" 1) [(5, [cInsA])]).maps
              (some ((0 : Nat) : Int))).getD newSlice).memids 514 514) "") :=
  ⟨by decide,
   owner_has_reverse_index_entry "SELF" 1 [(5, [cInsA])] 0 514 514
     ((mapsGet (applyBatches (fresh "SELF" 1) [(5, [cInsA])]).maps
        (some ((0 : Nat) : Int))).getD newSlice)
     (option_some_getD _ newSlice (by decide)) (by decide)⟩

end PlaceFieldModel
